import Mathlib

/-!
Verification development for the graph-schema deduction and
instance-to-graph extraction engine of the repository
(`demos/ekg/graph_schema.py` and `demos/ekg/graph_core.py`).

Python values, pydantic model classes and instances, the schema
deduction pass, the extraction pass and the loader are shallowly
embedded as executable Lean functions.  Theorems below settle the
specified properties against these definitions.
-/

namespace GraphSpec

/-- Python values as they occur in extracted property maps: `None`,
strings, dicts (from `model_dump` of nested models) and lists. -/
inductive PVal where
  | none : PVal
  | str (s : String) : PVal
  | dict (fields : List (String × PVal)) : PVal
  | list (elems : List PVal) : PVal

/-- A single-quote character, used by the Python `repr`/escaping logic. -/
def sq : String := String.singleton (Char.ofNat 39)

/-- `s.split(".")`, implemented structurally over the character list so
that closed terms reduce in the kernel. -/
def splitDotAux : List Char → List Char → List String
  | [], acc => [String.mk acc.reverse]
  | c :: rest, acc =>
      if c = Char.ofNat 46 then String.mk acc.reverse :: splitDotAux rest []
      else splitDotAux rest (c :: acc)

def splitDot (s : String) : List String := splitDotAux s.data []

/-- `s.startswith(pre)`. -/
def strStarts (s pre : String) : Bool := pre.data.isPrefixOf s.data

/-- `"." in s`. -/
def containsDot (s : String) : Bool := s.data.contains (Char.ofNat 46)

/-- `s[n:]` (character-based slicing, as in Python). -/
def dropChars (s : String) (n : Nat) : String := String.mk (s.data.drop n)

/-- `s.lower()` (ASCII). -/
def lowerStr (s : String) : String := String.mk (s.data.map Char.toLower)

/-- `".".join(parts)`. -/
def intercalateDot : List String → String
  | [] => ""
  | [x] => x
  | x :: rest => x ++ "." ++ intercalateDot rest

mutual
/-- Python `repr` of a value, as far as the loader's string handling can
observe it (exact spacing follows CPython's rendering of dicts/lists). -/
def pyRepr : PVal → String
  | .none => "None"
  | .str s => sq ++ s ++ sq
  | .dict fs => "\x7b" ++ pyReprFields fs ++ "\x7d"
  | .list vs => "[" ++ pyReprElems vs ++ "]"

def pyReprFields : List (String × PVal) → String
  | [] => ""
  | [(k, v)] => sq ++ k ++ sq ++ ": " ++ pyRepr v
  | (k, v) :: rest => sq ++ k ++ sq ++ ": " ++ pyRepr v ++ ", " ++ pyReprFields rest

def pyReprElems : List PVal → String
  | [] => ""
  | [v] => pyRepr v
  | v :: rest => pyRepr v ++ ", " ++ pyReprElems rest
end

/-- Python `str()` of a value. -/
def pyStr : PVal → String
  | .none => "None"
  | .str s => s
  | v => pyRepr v

/-- Python truthiness of a value (`if value:`). -/
def pyTruthy : PVal → Bool
  | .none => false
  | .str s => s != ""
  | .dict fs => !fs.isEmpty
  | .list vs => !vs.isEmpty

/-- `d.get(k)` on an insertion-ordered Python dict modelled as an
association list. -/
def alookup {β : Type} : List (String × β) → String → Option β
  | [], _ => Option.none
  | (k₂, v) :: rest, k => if k₂ = k then some v else alookup rest k

/-- `d[k] = v` on a Python dict: replaces in place an existing binding
(keeping its position) or appends a fresh one. -/
def aset {β : Type} : List (String × β) → String → β → List (String × β)
  | [], k, v => [(k, v)]
  | (k₂, v₂) :: rest, k, v =>
      if k₂ = k then (k₂, v) :: rest else (k₂, v₂) :: aset rest k v

/-- `d.pop(k, None)` on a Python dict: removes the binding for `k`. -/
def aerase {β : Type} : List (String × β) → String → List (String × β)
  | [], _ => []
  | (k₂, v₂) :: rest, k =>
      if k₂ = k then rest else (k₂, v₂) :: aerase rest k

mutual
/-- A pydantic model instance: a class name together with its
insertion-ordered attribute map. -/
inductive Inst where
  | mk (className : String) (fields : List (String × FieldVal)) : Inst

/-- An attribute value of a pydantic model instance: `None`, a string
primitive, a nested model, or a list of nested models. -/
inductive FieldVal where
  | vnone : FieldVal
  | vstr (s : String) : FieldVal
  | obj (i : Inst) : FieldVal
  | objs (l : List Inst) : FieldVal
end

def Inst.className : Inst → String
  | .mk n _ => n

def Inst.fields : Inst → List (String × FieldVal)
  | .mk _ fs => fs

mutual
/-- `model_dump()` of a pydantic instance: the attribute map with nested
models converted to dicts. -/
def dumpInst : Inst → List (String × PVal)
  | .mk _ fields => dumpFields fields

def dumpFields : List (String × FieldVal) → List (String × PVal)
  | [] => []
  | (k, v) :: rest => (k, dumpVal v) :: dumpFields rest

def dumpVal : FieldVal → PVal
  | .vnone => .none
  | .vstr s => .str s
  | .obj i => .dict (dumpInst i)
  | .objs l => .list (dumpObjs l)

def dumpObjs : List Inst → List PVal
  | [] => []
  | i :: rest => .dict (dumpInst i) :: dumpObjs rest
end

example : dumpVal (.obj (.mk "A" [("x", .vstr "1"), ("y", .vnone)]))
    = .dict [("x", .str "1"), ("y", .none)] := rfl

example : pyRepr (.dict [("x", .str "1")]) = "\x7b" ++ sq ++ "x" ++ sq ++ ": " ++ sq ++ "1" ++ sq ++ "\x7d" := rfl

/-- Python truthiness of an attribute value. -/
def fvTruthy : FieldVal → Bool
  | .vnone => false
  | .vstr s => s != ""
  | .obj _ => true
  | .objs l => !l.isEmpty

/-- Whether an attribute value is Python `None`. -/
def fvIsNone : FieldVal → Bool
  | .vnone => true
  | _ => false

/-- One attribute-access step of `get_field_by_path`: only model objects
expose attributes (a primitive or a list stops the traversal, as
`hasattr` fails there and the function returns `None`). -/
def getStep : FieldVal → String → Option FieldVal
  | .obj i, part => alookup i.fields part
  | _, _ => Option.none

def getFieldByPathAux : FieldVal → List String → Option FieldVal
  | cur, [] => some cur
  | cur, p :: rest =>
      match getStep cur p with
      | some nxt => getFieldByPathAux nxt rest
      | Option.none => Option.none

/-- `get_field_by_path` from graph_core.py: dotted traversal, returning
`None` both when the path is missing and when the reached attribute holds
`None`; both outcomes are `FieldVal.vnone` here. -/
def get_field_by_path (obj : Inst) (path : String) : FieldVal :=
  match getFieldByPathAux (.obj obj) (splitDot path) with
  | some v => v
  | Option.none => .vnone

/-- `getattr(value, field, None)`. -/
def getAttrD (v : FieldVal) (field : String) : FieldVal :=
  match v with
  | .obj i => (alookup i.fields field).getD .vnone
  | _ => .vnone

/-- The `name_from` configuration of a node declaration: either a field
name or a callable mapping (property map, node type name) to a value. -/
inductive NameFrom where
  | field (f : String) : NameFrom
  | fn (g : List (String × PVal) → String → PVal) : NameFrom

/-- `GraphNodeConfig` from graph_schema.py, restricted to the fields the
core reads.  `className` stands for `baml_class.__name__` (classes are
identified by their names).  `embedPref` renders the source's legacy
embed-naming attribute (paired with `embed_in_parent`).  The dynamic
`_field_path` attribute set by `create_graph` always equals
`field_paths[0]` (or is absent exactly when `field_paths` is empty),
which is also the fallback every reader of that attribute uses, so it is
modelled by the derived function `fieldPathA` below. -/
structure GraphNodeConfig where
  className : String
  name_from : NameFrom
  description : String := ""
  embedded : List (String × String) := []
  deduplication_key : Option String := Option.none
  index_fields : List String := []
  field_paths : List String := []
  is_list_at_paths : List (String × Bool) := []
  excluded_fields : List String := []
  embed_in_parent : Bool := false
  embedPref : String := ""
  parent_node_class : Option String := Option.none

/-- `GraphNodeConfig.key`: all nodes use "id" as primary key. -/
def GraphNodeConfig.key (_ : GraphNodeConfig) : String := "id"

/-- The `_field_path` dynamic attribute / its universal fallback
`field_paths[0] if field_paths else None`. -/
def GraphNodeConfig.fieldPathA (n : GraphNodeConfig) : Option String :=
  n.field_paths.head?

/-- `GraphNodeConfig.get_name_value`: the display name from the
configured source, falling back to `"{node_type}_unnamed"` when the
field is absent/None or the callable returns None. -/
def GraphNodeConfig.get_name_value (cfg : GraphNodeConfig)
    (data : List (String × PVal)) (node_type : String) : String :=
  match cfg.name_from with
  | .field f =>
      match alookup data f with
      | some PVal.none => node_type ++ "_unnamed"
      | some v => pyStr v
      | Option.none => node_type ++ "_unnamed"
  | .fn g =>
      match g data node_type with
      | PVal.none => node_type ++ "_unnamed"
      | v => pyStr v

/-- `GraphRelationConfig` from graph_schema.py.  `from_node`/`to_node`
hold the endpoint class names; `fromPathAttr`/`toPathAttr` model the
dynamic `_from_field_path`/`_to_field_path` attributes assigned by
`create_graph` (absent when extraction is run without that step). -/
structure GraphRelationConfig where
  from_node : String
  to_node : String
  name : String
  description : String := ""
  field_paths : List (String × String) := []
  fromPathAttr : Option String := Option.none
  toPathAttr : Option String := Option.none

/-- `_detect_parent_class`: legacy heuristic finding the node whose
field path is the dot-prefix of the embedded node's path. -/
def detect_parent_class (embedded_node : GraphNodeConfig)
    (all_nodes : List GraphNodeConfig) : Option String :=
  match embedded_node.fieldPathA with
  | Option.none => Option.none
  | some fp =>
      if fp = "" then Option.none
      else
        let parts := splitDot fp
        if parts.length ≤ 1 then Option.none
        else
          let parentPath := intercalateDot parts.dropLast
          match all_nodes.find? (fun n =>
              !n.embed_in_parent && n.fieldPathA == some parentPath) with
          | some n => some n.className
          | Option.none => Option.none

/-- `_find_embedded_data_in_model`: first non-None root attribute that is
an instance of the target class.  (The source's second chance — matching
the static annotation — is subsumed here because instances carry their
class name.) -/
def find_embedded_data_in_model_aux (targetClass : String) :
    List (String × FieldVal) → Option FieldVal
  | [] => Option.none
  | (_, v) :: rest =>
      match v with
      | .vnone => find_embedded_data_in_model_aux targetClass rest
      | .obj i =>
          if i.className = targetClass then some (.obj i)
          else find_embedded_data_in_model_aux targetClass rest
      | _ => find_embedded_data_in_model_aux targetClass rest

def find_embedded_data_in_model (root : Inst) (targetClass : String) : Option FieldVal :=
  find_embedded_data_in_model_aux targetClass root.fields

/-- The dict a value turns into before `.get` calls in the edge pass and
in `_add_embedded_fields`: `model_dump()` for instances; any other value
has no dict form (the source would raise there). -/
def asDictF : FieldVal → Option (List (String × PVal))
  | .obj i => some (dumpInst i)
  | _ => Option.none

/-- Merge a dumped dict into a row under `pre ++ key`. -/
def mergeWithPre (row : List (String × PVal)) (pre : String)
    (d : List (String × PVal)) : List (String × PVal) :=
  d.foldl (fun acc kv => aset acc (pre ++ kv.1) kv.2) row

/-- The new-structure half of `_add_embedded_fields`: flatten each
`(field_name, class)` of `parent_node.embedded` into the row under the
`{field_name}_` prefix. -/
def add_embedded_new (row : List (String × PVal)) (model : Inst)
    (parent_node : GraphNodeConfig) : List (String × PVal) :=
  if parent_node.embedded.isEmpty then row
  else
    let parent_instance : FieldVal :=
      match parent_node.fieldPathA with
      | some fp => if fp = "" then .obj model else get_field_by_path model fp
      | Option.none => .obj model
    parent_node.embedded.foldl (fun acc fe =>
      let embedded_data :=
        if fvTruthy parent_instance then getAttrD parent_instance fe.1 else .vnone
      match asDictF embedded_data with
      | some d => mergeWithPre acc (fe.1 ++ "_") d
      | Option.none => acc) row

/-- The legacy half of `_add_embedded_fields`: every `embed_in_parent`
node whose (declared or detected) parent is this node contributes its
data under `embed_prefix` (or `{classname.lower()}_`). -/
def add_embedded_legacy (row : List (String × PVal)) (model : Inst)
    (all_nodes : List GraphNodeConfig) (parent_node : GraphNodeConfig) :
    List (String × PVal) :=
  all_nodes.foldl (fun acc en =>
    if !en.embed_in_parent then acc
    else
      let parent_class : Option String :=
        match en.parent_node_class with
        | some c => some c
        | Option.none => detect_parent_class en all_nodes
      match parent_class with
      | Option.none => acc
      | some pc =>
          if pc ≠ parent_node.className then acc
          else
            let embedded_data : FieldVal :=
              match en.fieldPathA with
              | some fp => if fp = "" then .vnone else get_field_by_path model fp
              | Option.none => .vnone
            let embedded_data : Option FieldVal :=
              if fvIsNone embedded_data then
                find_embedded_data_in_model model en.className
              else some embedded_data
            match embedded_data with
            | Option.none => acc
            | some ed =>
                match asDictF ed with
                | some d =>
                    let pre :=
                      if en.embedPref ≠ "" then en.embedPref
                      else lowerStr en.className ++ "_"
                    mergeWithPre acc pre d
                | Option.none => acc) row

/-- `_add_embedded_fields` from graph_core.py. -/
def add_embedded_fields (row : List (String × PVal)) (model : Inst)
    (all_nodes : List GraphNodeConfig) (parent_node : GraphNodeConfig) :
    List (String × PVal) :=
  add_embedded_legacy (add_embedded_new row model parent_node) model all_nodes parent_node

/-- A node row: the property map of one extracted item. -/
abbrev Row := List (String × PVal)

/-- The mutable state of the node pass of `extract_graph_data`:
`nodes_dict`, `node_registry` (the per-type set of seen deduplication
strings), `id_registry`, and the position in the fresh-identity /
timestamp supplies (one `uuid4()` and one `utcnow()` call per item). -/
structure ExtState where
  table : List (String × List Row)
  seen : List (String × List String)
  reg : List (String × List (String × PVal))
  ctr : Nat

/-- `nodes_dict[node_type].append(row)` (the bucket exists from the
init loop; a missing bucket is treated as empty). -/
def appendRow (t : List (String × List Row)) (nodeType : String) (row : Row) :
    List (String × List Row) :=
  aset t nodeType ((alookup t nodeType).getD [] ++ [row])

/-- `node_registry[node_type].add(s)`. -/
def addSeen (s : List (String × List String)) (nodeType ds : String) :
    List (String × List String) :=
  aset s nodeType ((alookup s nodeType).getD [] ++ [ds])

/-- `id_registry[node_type][key] = v`. -/
def addReg (r : List (String × List (String × PVal))) (nodeType key : String)
    (v : PVal) : List (String × List (String × PVal)) :=
  aset r nodeType (aset ((alookup r nodeType).getD []) key v)

/-- `item_data["id"]`: present on every row unless "id" was excluded, in
which case the source raises `KeyError`; modelled as `None` there. -/
def idOfRow (row : Row) : PVal := (alookup row "id").getD .none

/-- `if node_info.deduplication_key:` — the key is used only when it is
a truthy (non-empty) string. -/
def dedupKeyOf (cfg : GraphNodeConfig) : Option String :=
  match cfg.deduplication_key with
  | some k => if k = "" then Option.none else some k
  | Option.none => Option.none

/-- The property map built for one extracted item: dump, identity,
display name, excluded-field drops, embedded-field merge, timestamps
(the `item_data` mutation chain of the per-item loop, in source order). -/
def buildRow (model : Inst) (allNodes : List GraphNodeConfig)
    (cfg : GraphNodeConfig) (idv now : String) (inst : Inst) : Row :=
  let d1 := aset (dumpInst inst) "id" (.str idv)
  let d2 := aset d1 "_name" (.str (cfg.get_name_value d1 cfg.className))
  let d3 := cfg.excluded_fields.foldl (fun acc f => aerase acc f) d2
  let d4 := add_embedded_fields d3 model allNodes cfg
  aset (aset d4 "_created_at" (.str now)) "_updated_at" (.str now)

/-- The deduplication value of a finished row: the configured key's
value, else the `_name` field. -/
def rowDedup (cfg : GraphNodeConfig) (row : Row) : PVal :=
  match dedupKeyOf cfg with
  | some k => (alookup row k).getD .none
  | Option.none => (alookup row "_name").getD .none

/-- The stringified deduplication value, when one is obtainable (truthy). -/
def rowDedupStr (cfg : GraphNodeConfig) (row : Row) : Option String :=
  if pyTruthy (rowDedup cfg row) then some (pyStr (rowDedup cfg row))
  else Option.none

/-- The body of the per-item loop of the node pass: build the row, then
deduplicate (first wins) or — with no obtainable deduplication value —
always keep, registered under its own identity.  Non-model items (the
source also admits plain dicts, which this instance model does not
produce) are skipped. -/
def processItem (model : Inst) (allNodes : List GraphNodeConfig)
    (cfg : GraphNodeConfig) (ids times : Nat → String) (st : ExtState)
    (item : FieldVal) : ExtState :=
  match item with
  | .obj inst =>
      let nodeType := cfg.className
      let d5 := buildRow model allNodes cfg (ids st.ctr) (times st.ctr) inst
      let dedupVal : PVal := rowDedup cfg d5
      let st1 : ExtState := { st with ctr := st.ctr + 1 }
      if pyTruthy dedupVal then
        let ds := pyStr dedupVal
        if ((alookup st1.seen nodeType).getD []).contains ds then st1
        else
          { st1 with
            table := appendRow st1.table nodeType d5
            seen := addSeen st1.seen nodeType ds
            reg := addReg st1.reg nodeType ds (idOfRow d5) }
      else
        { st1 with
          table := appendRow st1.table nodeType d5
          reg := addReg st1.reg nodeType (pyStr (idOfRow d5)) (idOfRow d5) }
  | _ => st

/-- Python iteration of a resolved field value when the path was deduced
plural: lists yield their elements, strings yield their characters;
iterating a model or `None` raises `TypeError` in the source (modelled as
no items). -/
def iterFV : FieldVal → List FieldVal
  | .objs l => l.map .obj
  | .vstr s => s.toList.map (fun c => .vstr (String.singleton c))
  | _ => []

/-- The per-path loop body of the node pass. -/
def processPath (model : Inst) (allNodes : List GraphNodeConfig)
    (cfg : GraphNodeConfig) (ids times : Nat → String) (st : ExtState)
    (p : Option String) : ExtState :=
  let field_data : FieldVal :=
    match p with
    | some fp => if fp = "" then .obj model else get_field_by_path model fp
    | Option.none => .obj model
  if fvIsNone field_data then st
  else
    let is_list : Bool :=
      match p with
      | some fp => (alookup cfg.is_list_at_paths fp).getD false
      | Option.none => false
    let items : List FieldVal := if is_list then iterFV field_data else [field_data]
    items.foldl (processItem model allNodes cfg ids times) st

/-- The per-declaration loop body of the node pass: `embed_in_parent`
nodes are skipped; an empty path list is processed as the single path
`None` (the root). -/
def processNode (model : Inst) (allNodes : List GraphNodeConfig)
    (ids times : Nat → String) (st : ExtState) (cfg : GraphNodeConfig) : ExtState :=
  if cfg.embed_in_parent then st
  else
    let paths : List (Option String) :=
      if cfg.field_paths.isEmpty then [Option.none] else cfg.field_paths.map some
    paths.foldl (processPath model allNodes cfg ids times) st

/-- The init loop of `extract_graph_data`: one (empty) bucket per
declared node type in each of the three maps. -/
def initState (nodes : List GraphNodeConfig) : ExtState :=
  nodes.foldl
    (fun st cfg =>
      { st with
        table := aset st.table cfg.className []
        seen := aset st.seen cfg.className []
        reg := aset st.reg cfg.className [] })
    { table := [], seen := [], reg := [], ctr := 0 }

/-- An edge tuple `(from_type, from_id, to_type, to_id, rel_name)`. -/
structure Edge where
  from_type : String
  from_id : PVal
  to_type : String
  to_id : PVal
  name : String

/-- Dedup value of an endpoint in the edge pass: key lookup on the raw
dump when a dedup key is configured, else the freshly computed display
name (the node pass's `_name` logic applied to the raw dump). -/
def endpointDedup (cfg : GraphNodeConfig) (d : List (String × PVal))
    (nodeType : String) : PVal :=
  match dedupKeyOf cfg with
  | some k => (alookup d k).getD .none
  | Option.none => .str (cfg.get_name_value d nodeType)

/-- `str(v) if v else None` followed by the registry `.get`; a falsy
looked-up identity also fails the `if not from_id` / `if to_id` check. -/
def regResolve (reg : List (String × List (String × PVal))) (nodeType : String)
    (v : PVal) : Option PVal :=
  if pyTruthy v then
    match alookup ((alookup reg nodeType).getD []) (pyStr v) with
    | some idv => if pyTruthy idv then some idv else Option.none
    | Option.none => Option.none
  else Option.none

/-- The inner loop of the edge pass over `to_items`. -/
def processToItem (reg : List (String × List (String × PVal)))
    (tInfo : GraphNodeConfig) (from_type : String) (from_id : PVal)
    (to_type rel_name : String) (acc : List Edge) (to_item : FieldVal) :
    List Edge :=
  if fvIsNone to_item then acc
  else
    match asDictF to_item with
    | Option.none => acc
    | some to_dict =>
        match regResolve reg to_type (endpointDedup tInfo to_dict to_type) with
        | some to_id => acc ++ [⟨from_type, from_id, to_type, to_id, rel_name⟩]
        | Option.none => acc

/-- `from_data`: the from-path resolved against the instance (the whole
instance when the path is absent or root). -/
def fromDataOf (model : Inst) (r : GraphRelationConfig) : FieldVal :=
  match r.fromPathAttr with
  | some fp => if fp = "" then .obj model else get_field_by_path model fp
  | Option.none => .obj model

/-- `to_data`: the to-path resolved against the instance; an absent or
root to-path yields `None` (the source asymmetry). -/
def toDataOf (model : Inst) (r : GraphRelationConfig) : FieldVal :=
  match r.toPathAttr with
  | some tp => if tp = "" then .vnone else get_field_by_path model tp
  | Option.none => .vnone

/-- The per-relation body of the edge pass of `extract_graph_data`.  The
paths it walks are the dynamic `_from_field_path`/`_to_field_path`
attributes (set by `create_graph` from the first deduced pair); note the
asymmetry of the source: a missing/root `to` path yields no data, while a
missing/root `from` path resolves to the whole instance. -/
def processRelation (model : Inst) (nodes : List GraphNodeConfig)
    (reg : List (String × List (String × PVal))) (acc : List Edge)
    (r : GraphRelationConfig) : List Edge :=
  let from_type := r.from_node
  let to_type := r.to_node
  match nodes.find? (fun n => n.className == from_type),
        nodes.find? (fun n => n.className == to_type) with
  | some fInfo, some tInfo =>
      if fInfo.embed_in_parent || tInfo.embed_in_parent then acc
      else
        let from_data : FieldVal := fromDataOf model r
        let to_data : FieldVal := toDataOf model r
        if fvIsNone from_data || fvIsNone to_data then acc
        else
          match asDictF from_data with
          | Option.none => acc
          | some from_dict =>
              match regResolve reg from_type (endpointDedup fInfo from_dict from_type) with
              | Option.none => acc
              | some from_id =>
                  let to_items : List FieldVal :=
                    match to_data with
                    | .objs l => l.map .obj
                    | other => [other]
                  to_items.foldl
                    (processToItem reg tInfo from_type from_id to_type r.name) acc
  | _, _ => acc

/-- `extract_graph_data` from graph_core.py, with the node-pass state and
edge list both exposed.  `ids`/`times` supply the per-item `uuid4()` and
`utcnow()` results. -/
def extract_full (model : Inst) (nodes : List GraphNodeConfig)
    (relations : List GraphRelationConfig) (ids times : Nat → String) :
    ExtState × List Edge :=
  let st := nodes.foldl (processNode model nodes ids times) (initState nodes)
  (st, relations.foldl (processRelation model nodes st.reg) [])

/-- The public result of `extract_graph_data`: `(nodes_dict, relationships)`. -/
def extract_graph_data (model : Inst) (nodes : List GraphNodeConfig)
    (relations : List GraphRelationConfig) (ids times : Nat → String) :
    List (String × List Row) × List Edge :=
  let r := extract_full model nodes relations ids times
  (r.1.table, r.2)

/-- The relation-preparation step of `create_graph` for one relation:
wire the FIRST deduced `(from_path, to_path)` pair — and only it — into
the dynamic attributes the edge pass reads. -/
def prepare_relation (r : GraphRelationConfig) : GraphRelationConfig :=
  match r.field_paths.head? with
  | some pr => { r with fromPathAttr := some pr.1, toPathAttr := some pr.2 }
  | Option.none => { r with fromPathAttr := Option.none, toPathAttr := Option.none }

/-- The relation-preparation loop of `create_graph`. -/
def prepare_relations (relations : List GraphRelationConfig) :
    List GraphRelationConfig :=
  relations.map prepare_relation

/-- The extraction part of `create_graph`: prepare the relation path
attributes, then run `extract_graph_data`.  (The node-side preparation
only re-computes values already determined by `field_paths`, and the DDL
and load steps do not feed back into extraction.) -/
def create_graph_data (model : Inst) (nodes : List GraphNodeConfig)
    (relations : List GraphRelationConfig) (ids times : Nat → String) :
    List (String × List Row) × List Edge :=
  extract_graph_data model nodes (prepare_relations relations) ids times

/-- A field annotation of a pydantic model class, pre-classified the way
`_build_model_field_map` classifies raw annotations (one level of
`Optional`/`List` unwrapped; forward references resolved against the
module where possible, otherwise opaque). -/
inductive Annot where
  | prim : Annot
  | model (cl : String) : Annot
  | listModel (cl : String) : Annot
  | listPrim : Annot
  | optModel (cl : String) : Annot
  | optListModel (cl : String) : Annot
  | optListPrim : Annot
  | optPrim : Annot

/-- A pydantic model class: name and ordered `model_fields`. -/
structure ModelClass where
  name : String
  fields : List (String × Annot)

/-- The `type` entry of a field-map record: a resolved model class or the
raw (opaque) annotation. -/
inductive TypeRef where
  | cls (n : String) : TypeRef
  | prim : TypeRef

/-- One record of `_model_field_map`: path from root, resolved target
type, plurality.  (The source also stores the raw annotation, which no
later pass reads.) -/
structure FieldInfo where
  path : String
  type : TypeRef
  is_list : Bool

abbrev FieldMap := List (String × List (String × FieldInfo))

def findClass (module : List ModelClass) (n : String) : Option ModelClass :=
  module.find? (fun c => c.name == n)

/-- The model class an annotation resolves to, with its plurality, when
`_build_model_field_map` would recurse into it. -/
def annotClass : Annot → Option (String × Bool)
  | .model cl => some (cl, false)
  | .listModel cl => some (cl, true)
  | .optModel cl => some (cl, false)
  | .optListModel cl => some (cl, true)
  | _ => Option.none

/-- The `is_list` recorded for annotations that do NOT resolve to a model
class.  Note the source quirk: `Optional[List[prim]]` falls through to
the plain-Optional branch and is recorded non-plural. -/
def isListAnnot : Annot → Bool
  | .listModel _ => true
  | .listPrim => true
  | _ => false

def setFMEntry (fm : FieldMap) (cl field : String) (fi : FieldInfo) : FieldMap :=
  aset fm cl (aset ((alookup fm cl).getD []) field fi)

/-- `explore_model` inside `_build_model_field_map`: depth-first walk of
the reachable classes, guarded by a visited set; the fuel argument only
bounds the recursion depth for Lean and never runs out when it starts at
`module.length + 1` (each nested call consumes an unvisited class). -/
def exploreModel (module : List ModelClass) :
    Nat → List String → FieldMap → String → String → (List String × FieldMap)
  | 0, visited, fm, _, _ => (visited, fm)
  | fuel + 1, visited, fm, clName, path =>
      if visited.contains clName then (visited, fm)
      else
        let visited := clName :: visited
        match findClass module clName with
        | Option.none => (visited, fm)
        | some mc =>
            let fm := aset fm clName []
            mc.fields.foldl
              (fun (acc : List String × FieldMap) fld =>
                let fieldPath := if path = "" then fld.1 else path ++ "." ++ fld.1
                match annotClass fld.2 with
                | some inner =>
                    if (findClass module inner.1).isSome then
                      let fm2 := setFMEntry acc.2 clName fld.1
                        ⟨fieldPath, .cls inner.1, inner.2⟩
                      exploreModel module fuel acc.1 fm2 inner.1 fieldPath
                    else
                      (acc.1, setFMEntry acc.2 clName fld.1
                        ⟨fieldPath, .prim, isListAnnot fld.2⟩)
                | Option.none =>
                    (acc.1, setFMEntry acc.2 clName fld.1
                      ⟨fieldPath, .prim, isListAnnot fld.2⟩))
              (visited, fm)

/-- `_build_model_field_map`. -/
def build_model_field_map (module : List ModelClass) (root : String) : FieldMap :=
  (exploreModel module (module.length + 1) [] [] root "").2

/-- `_deduce_node_field_paths`: the root class gets the single synthetic
empty path (never plural); every other node class collects every field
of the map that resolves to it. -/
def deduce_node_field_paths (rootClass : String) (fm : FieldMap)
    (nodes : List GraphNodeConfig) : List GraphNodeConfig :=
  nodes.map (fun nc =>
    if nc.className = rootClass then
      { nc with field_paths := [""], is_list_at_paths := [("", false)] }
    else
      let upd := fm.foldl
        (fun acc clsFields =>
          clsFields.2.foldl
            (fun (acc : List String × List (String × Bool)) fi =>
              match fi.2.type with
              | .cls n =>
                  if n = nc.className then
                    (acc.1 ++ [fi.2.path], aset acc.2 fi.2.path fi.2.is_list)
                  else acc
              | .prim => acc)
            acc)
        ([], [])
      { nc with field_paths := upd.1, is_list_at_paths := upd.2 })

/-- `_get_node_paths`. -/
def get_node_paths (nodes : List GraphNodeConfig) (cl : String) : List String :=
  match nodes.find? (fun n => n.className == cl) with
  | some n => n.field_paths
  | Option.none => []

/-- Number of leading common dot-segments. -/
def commonLen : List String → List String → Nat
  | a :: as2, b :: bs => if a = b then commonLen as2 bs + 1 else 0
  | _, _ => 0

/-- `_is_valid_relationship_path`: root source, dot-prefix descent in
either direction, or a shared non-empty ancestor pre fix. -/
def is_valid_relationship_path (from_path to_path : String) : Bool :=
  if from_path = "" then true
  else if strStarts to_path (from_path ++ ".")
      || strStarts from_path (to_path ++ ".") then true
  else commonLen (splitDot from_path) (splitDot to_path) > 0

/-- `_deduce_relation_field_paths`: the filtered cartesian product of the
endpoint path lists. -/
def deduce_relation_field_paths (nodes : List GraphNodeConfig)
    (relations : List GraphRelationConfig) : List GraphRelationConfig :=
  relations.map (fun r =>
    let fps := get_node_paths nodes r.from_node
    let tps := get_node_paths nodes r.to_node
    let pairs := fps.foldl
      (fun acc fp =>
        tps.foldl
          (fun acc tp =>
            if is_valid_relationship_path fp tp then acc ++ [(fp, tp)] else acc)
          acc)
      []
    { r with field_paths := pairs })

/-- Insertion into an insertion-ordered set. -/
def setAdd (l : List String) (s : String) : List String :=
  if l.contains s then l else l ++ [s]

def firstSeg (s : String) : String :=
  match splitDot s with
  | seg :: _ => seg
  | [] => ""

/-- The per-pair step of `_compute_excluded_fields` for relations whose
from-type is this node. -/
def excludeFromPair (acc : List String) (pr : String × String) : List String :=
  let from_path := pr.1
  let to_path := pr.2
  if to_path ≠ "" && containsDot to_path then
    if from_path = "" then setAdd acc (firstSeg to_path)
    else if strStarts to_path (from_path ++ ".") then
      setAdd acc (firstSeg (dropChars to_path (from_path.data.length + 1)))
    else acc
  else if to_path ≠ "" then
    if from_path = "" then setAdd acc to_path else acc
  else acc

/-- The legacy `embed_in_parent` step of `_compute_excluded_fields`. -/
def excludeLegacy (nodes : List GraphNodeConfig) (nc : GraphNodeConfig)
    (acc0 : List String) : List String :=
  nodes.foldl
    (fun acc onode =>
      if onode.embed_in_parent && onode.className != nc.className then
        onode.field_paths.foldl
          (fun acc op =>
            nc.field_paths.foldl
              (fun acc ourp =>
                if strStarts op (ourp ++ ".")
                    || (ourp = "" && containsDot op) then
                  if ourp = "" then setAdd acc (firstSeg op)
                  else setAdd acc (firstSeg (dropChars op (ourp.data.length + 1)))
                else acc)
              acc)
          acc
      else acc)
    acc0

/-- `_compute_excluded_fields`. -/
def compute_excluded_fields (nodes : List GraphNodeConfig)
    (relations : List GraphRelationConfig) : List GraphNodeConfig :=
  nodes.map (fun nc =>
    let e1 := relations.foldl
      (fun acc r =>
        if r.from_node = nc.className then r.field_paths.foldl excludeFromPair acc
        else acc)
      []
    let e2 := nc.embedded.foldl (fun acc fe => setAdd acc fe.1) e1
    let e3 := excludeLegacy nodes nc e2
    { nc with excluded_fields := e3 })

/-- A `GraphSchema` declaration set (pre-validation). -/
structure GraphSchema where
  root_model_class : String
  nodes : List GraphNodeConfig
  relations : List GraphRelationConfig

/-- `validate_and_deduce_schema` (the model validator): build the field
map, deduce node paths, deduce relation path pairs, compute excluded
fields.  (`_validate_coherence` only collects warnings and changes no
deduced data, so it is not modelled.) -/
def validate_and_deduce_schema (module : List ModelClass) (s : GraphSchema) :
    GraphSchema :=
  let fm := build_model_field_map module s.root_model_class
  let nodes := deduce_node_field_paths s.root_model_class fm s.nodes
  let relations := deduce_relation_field_paths nodes s.relations
  let nodes2 := compute_excluded_fields nodes relations
  { s with nodes := nodes2, relations := relations }

/-- End-to-end: validate/deduce the schema, then run `create_graph`'s
extraction (relation path preparation + `extract_graph_data`). -/
def run_pipeline (module : List ModelClass) (s : GraphSchema) (model : Inst)
    (ids times : Nat → String) : List (String × List Row) × List Edge :=
  let s2 := validate_and_deduce_schema module s
  create_graph_data model s2.nodes s2.relations ids times

/-- Like `run_pipeline`, but exposing the full node-pass state. -/
def run_pipeline_full (module : List ModelClass) (s : GraphSchema) (model : Inst)
    (ids times : Nat → String) : ExtState × List Edge :=
  let s2 := validate_and_deduce_schema module s
  extract_full model s2.nodes (prepare_relations s2.relations) ids times

/-- The rows extracted for one node type. -/
def bucketOf (st : ExtState) (t : String) : List Row :=
  (alookup st.table t).getD []

/-- The deduplication strings recorded for one node type. -/
def seenOf (st : ExtState) (t : String) : List String :=
  (alookup st.seen t).getD []

/-- The identity registry of one node type. -/
def regOf (st : ExtState) (t : String) : List (String × PVal) :=
  (alookup st.reg t).getD []

/-- `value.replace(target, repl)` for one target character. -/
def replChar (target : Char) (repl : List Char) (s : String) : String :=
  String.mk (s.data.foldr (fun c acc => if c = target then repl ++ acc else c :: acc) [])

/-- `.replace("'", "\\'")`. -/
def escSq (s : String) : String := replChar (Char.ofNat 39) ['\\', Char.ofNat 39] s

/-- `.replace('"', '\\"')`. -/
def escDq (s : String) : String := replChar (Char.ofNat 34) ['\\', Char.ofNat 34] s

/-- Split on a character (Python `str.split`). -/
def splitOnCharAux (sep : Char) : List Char → List Char → List String
  | [], acc => [String.mk acc.reverse]
  | c :: rest, acc =>
      if c = sep then String.mk acc.reverse :: splitOnCharAux sep rest []
      else splitOnCharAux sep rest (c :: acc)

/-- Scan for the next `>`: the characters before it and the remainder. -/
def findGt : List Char → List Char → Option (List Char × List Char)
  | [], _ => Option.none
  | c :: rest, acc =>
      if c = Char.ofNat 62 then some (acc.reverse, rest)
      else findGt rest (c :: acc)

/-- The replacement the loader's regex performs on a `<...>` match:
`m.split("'")[1]` when the match contains a quote, else the match. -/
def angleMatchRepl (inside : List Char) : List Char :=
  let matchChars := Char.ofNat 60 :: inside ++ [Char.ofNat 62]
  if matchChars.contains (Char.ofNat 39) then
    match splitOnCharAux (Char.ofNat 39) matchChars [] with
    | _ :: second :: _ => second.data
    | _ => matchChars
  else matchChars

/-- `re.sub(r"<[^>]+>", ...)` over the cleaned string: leftmost
non-overlapping matches of a non-empty bracketed run, each rewritten by
`angleMatchRepl`.  Fuel-driven so closed terms reduce; fuel `length + 1`
never runs out (each step consumes at least one character). -/
def removeAngleAux : Nat → List Char → List Char
  | 0, l => l
  | _ + 1, [] => []
  | fuel + 1, c :: rest =>
      if c = Char.ofNat 60 then
        match findGt rest [] with
        | some pr =>
            if pr.1.isEmpty then c :: removeAngleAux fuel rest
            else angleMatchRepl pr.1 ++ removeAngleAux fuel pr.2
        | Option.none => c :: removeAngleAux fuel rest
      else c :: removeAngleAux fuel rest

def removeAngle (s : String) : String :=
  String.mk (removeAngleAux (s.data.length + 1) s.data)

def joinWith (sep : String) : List String → String
  | [] => ""
  | [x] => x
  | x :: rest => x ++ sep ++ joinWith sep rest

/-- Serialization of one element of a list-valued property: complex
(dict) values are stringified with quote cleaning, everything else is
`str(v)`; the result is single-quoted with one more level of quote
escaping.  (The enum branch — `hasattr(v, "value")` — has no counterpart
among dumped values and is not modelled.) -/
def serializeListElem (v : PVal) : String :=
  let clean_v : String :=
    match v with
    | .dict fs => escDq (escSq (pyStr (.dict fs)))
    | other => pyStr other
  sq ++ escSq clean_v ++ sq

/-- The per-value serialization switch of `load_graph_data` (the
non-None cases). -/
def serializeVal : PVal → String
  | .none => "NULL"
  | .str s => sq ++ escSq s ++ sq
  | .list vs => "[" ++ joinWith "," (vs.map serializeListElem) ++ "]"
  | .dict fs => sq ++ removeAngle (escDq (escSq (pyStr (.dict fs)))) ++ sq

/-- The cleaning loop over one row: `None` under the primary-key field
aborts the row (`break`, i.e. no statement); other values are serialized
into `cleaned_data` in order. -/
def buildCleaned (pk : Option String) (acc : List (String × String)) :
    List (String × PVal) → Option (List (String × String))
  | [] => some acc
  | (k, v) :: rest =>
      match v with
      | PVal.none =>
          if some k = pk then Option.none
          else buildCleaned pk (aset acc k "NULL") rest
      | v => buildCleaned pk (aset acc k (serializeVal v)) rest

/-- The `CREATE (:{type} {...})` statement for one row, or `none` when
the row is skipped because its primary key is null. -/
def nodeStmt (node_type : String) (pk : Option String) (row : Row) :
    Option String :=
  match buildCleaned pk [] row with
  | some cd =>
      some ("CREATE (:" ++ node_type ++ " \x7b"
        ++ joinWith ", " (cd.map (fun kv => kv.1 ++ ": " ++ kv.2)) ++ "\x7d)")
  | Option.none => Option.none

/-- `primary_key_field = node_info.key if node_info else None`. -/
def pkFieldOf (nodes : List GraphNodeConfig) (node_type : String) : Option String :=
  match nodes.find? (fun n => n.className == node_type) with
  | some n => some n.key
  | Option.none => Option.none

/-- The node half of `load_graph_data`: the `conn.execute` call sequence
(per-row failures are caught and logged in the source, so the statement
sequence is the full observable behaviour). -/
def loadNodeStmts (nodes_dict : List (String × List Row))
    (nodes : List GraphNodeConfig) : List String :=
  nodes_dict.foldl
    (fun acc bucket =>
      let pk := pkFieldOf nodes bucket.1
      bucket.2.foldl
        (fun acc row =>
          match nodeStmt bucket.1 pk row with
          | some stmt => acc ++ [stmt]
          | Option.none => acc)
        acc)
    []

/-- The `MATCH ... CREATE` statement for one edge tuple (identities are
strings for every row the extractor produces; the source would fail on a
non-string before building the statement). -/
def relStmt (e : Edge) : String :=
  "\n        MATCH (from:" ++ e.from_type ++ "), (to:" ++ e.to_type
    ++ ")\n        WHERE from.id = " ++ sq ++ escSq (pyStr e.from_id) ++ sq
    ++ "\n          AND to.id = " ++ sq ++ escSq (pyStr e.to_id) ++ sq
    ++ "\n        CREATE (from)-[:" ++ e.name ++ "]->(to)\n        "

/-- `load_graph_data`: the full statement sequence issued to the
connection — all node inserts, then all relationship inserts. -/
def load_graph_data (nodes_dict : List (String × List Row))
    (relationships : List Edge) (nodes : List GraphNodeConfig) : List String :=
  loadNodeStmts nodes_dict nodes ++ relationships.map relStmt

/-! ### Basic lemmas about the Python-dict model -/

theorem alookup_aset_self {β : Type} (l : List (String × β)) (k : String) (v : β) :
    alookup (aset l k v) k = some v := by
  induction l with
  | nil => simp [aset, alookup]
  | cons hd tl ih =>
      obtain ⟨k₂, v₂⟩ := hd
      by_cases h : k₂ = k
      · subst h; simp [aset, alookup]
      · simp [aset, alookup, h, ih]

theorem alookup_aset_ne {β : Type} (l : List (String × β)) (k k₂ : String) (v : β)
    (h : k₂ ≠ k) : alookup (aset l k v) k₂ = alookup l k₂ := by
  induction l with
  | nil =>
      simp only [aset, alookup]
      rw [if_neg (fun hh : k = k₂ => h hh.symm)]
  | cons hd tl ih =>
      obtain ⟨k₃, v₃⟩ := hd
      by_cases h₃ : k₃ = k
      · subst h₃
        simp only [aset, if_pos rfl, alookup]
        rw [if_neg (fun hh : k₃ = k₂ => h hh.symm),
          if_neg (fun hh : k₃ = k₂ => h hh.symm)]
      · simp [aset, alookup, h₃, ih]

theorem alookup_aerase_ne {β : Type} (l : List (String × β)) (k k₂ : String)
    (h : k₂ ≠ k) : alookup (aerase l k) k₂ = alookup l k₂ := by
  induction l with
  | nil => simp [aerase, alookup]
  | cons hd tl ih =>
      obtain ⟨k₃, v₃⟩ := hd
      by_cases h₃ : k₃ = k
      · subst h₃
        rw [show aerase ((k₃, v₃) :: tl) k₃ = tl from by simp [aerase]]
        conv_rhs => rw [show alookup ((k₃, v₃) :: tl) k₂ = alookup tl k₂ from by
          simp only [alookup]; rw [if_neg (fun hh : k₃ = k₂ => h hh.symm)]]
      · simp [aerase, alookup, h₃, ih]

theorem alookup_aset_isSome {β : Type} (l : List (String × β)) (k k₂ : String)
    (v : β) (h : (alookup l k₂).isSome) : (alookup (aset l k v) k₂).isSome := by
  by_cases hk : k₂ = k
  · subst hk; simp [alookup_aset_self]
  · rwa [alookup_aset_ne l k k₂ v hk]

/-- Fold preservation of an invariant, with membership available. -/
theorem foldl_preserve_mem {α σ : Type _} {P : σ → Prop} (l : List α)
    (f : σ → α → σ) (h : ∀ s a, a ∈ l → P s → P (f s a)) :
    ∀ s, P s → P (l.foldl f s) := by
  induction l with
  | nil => intro s hs; simpa using hs
  | cons hd tl ih =>
      intro s hs
      simp only [List.foldl_cons]
      exact ih (fun s a ha hp => h s a (List.mem_cons_of_mem _ ha) hp) _
        (h s hd (List.mem_cons_self _ _) hs)

theorem getD_zero_mem {α : Type _} (l : List α) (d : α) (h : l ≠ []) :
    l.getD 0 d ∈ l := by
  cases l with
  | nil => exact absurd rfl h
  | cons hd tl => simp [List.getD]

/-! ### The spec's reference scenario (§8): `Review`/`Opportunity`/`Person` -/

def reviewCls : ModelClass :=
  ⟨"Review", [("date", .prim), ("opportunity", .model "Opportunity"),
    ("people", .listModel "Person")]⟩

def oppCls : ModelClass := ⟨"Opportunity", [("name", .prim)]⟩

def personCls : ModelClass := ⟨"Person", [("name", .prim)]⟩

def moduleReview : List ModelClass := [reviewCls, oppCls, personCls]

/-- The Review declaration names itself through a callable on `date`. -/
def reviewNodeCfg : GraphNodeConfig :=
  { className := "Review",
    name_from := .fn (fun d _ =>
      match alookup d "date" with
      | some v => v
      | Option.none => PVal.none) }

def oppNodeCfg : GraphNodeConfig :=
  { className := "Opportunity", name_from := .field "name" }

def personNodeCfg : GraphNodeConfig :=
  { className := "Person", name_from := .field "name" }

def schemaReview : GraphSchema :=
  { root_model_class := "Review",
    nodes := [reviewNodeCfg, oppNodeCfg, personNodeCfg],
    relations :=
      [⟨"Review", "Opportunity", "REVIEWS", "", [], Option.none, Option.none⟩,
       ⟨"Review", "Person", "HAS_PERSON", "", [], Option.none, Option.none⟩] }

/-- The duplicate-person instance: `people = [Alice, Alice]`. -/
def instDupAlice : Inst :=
  .mk "Review"
    [("date", .vstr "2024-01-01"),
     ("opportunity", .obj (.mk "Opportunity" [("name", .vstr "Acme Deal")])),
     ("people", .objs [.mk "Person" [("name", .vstr "Alice")],
                       .mk "Person" [("name", .vstr "Alice")]])]

/-- A deterministic stand-in for the run's `uuid4()` draws. -/
def idsU : Nat → String := fun n => ["u0", "u1", "u2", "u3", "u4", "u5"].getD n "ux"

def timesT1 : Nat → String := fun _ => "T1"

def defaultNC : GraphNodeConfig := { className := "", name_from := .field "" }

/-! ### C4 — the root declaration gets exactly the synthetic empty path -/

theorem compute_excluded_keeps_paths (nodes : List GraphNodeConfig)
    (relations : List GraphRelationConfig) (nc : GraphNodeConfig)
    (h : nc ∈ compute_excluded_fields nodes relations) :
    ∃ nc₀ ∈ nodes, nc.className = nc₀.className ∧
      nc.field_paths = nc₀.field_paths ∧
      nc.is_list_at_paths = nc₀.is_list_at_paths := by
  simp only [compute_excluded_fields, List.mem_map] at h
  obtain ⟨nc₀, h₀, rfl⟩ := h
  exact ⟨nc₀, h₀, rfl, rfl, rfl⟩

/-- C4: in a validated schema, every node declaration whose target type is
the root type has the deduced path list exactly `[""]`, marked
non-plural. -/
theorem root_decl_paths_are_synthetic_root (module : List ModelClass)
    (s : GraphSchema) (nc : GraphNodeConfig)
    (hmem : nc ∈ (validate_and_deduce_schema module s).nodes)
    (hroot : nc.className = s.root_model_class) :
    nc.field_paths = [""] ∧ nc.is_list_at_paths = [("", false)] := by
  simp only [validate_and_deduce_schema] at hmem
  obtain ⟨nc₁, h₁, hcl, hfp, hlp⟩ := compute_excluded_keeps_paths _ _ _ hmem
  simp only [deduce_node_field_paths, List.mem_map] at h₁
  obtain ⟨nc₀, _, rfl⟩ := h₁
  by_cases h : nc₀.className = s.root_model_class
  · rw [if_pos h] at hcl hfp hlp
    exact ⟨hfp, hlp⟩
  · rw [if_neg h] at hcl
    exact absurd (hcl ▸ hroot) h

/-- Witness for C4 at the reference scenario: the first declaration of the
validated schema targets the root type `Review` and receives `[""]`. -/
theorem root_decl_paths_are_synthetic_root_witness :
    ((validate_and_deduce_schema moduleReview schemaReview).nodes.getD 0 defaultNC)
        ∈ (validate_and_deduce_schema moduleReview schemaReview).nodes ∧
    ((validate_and_deduce_schema moduleReview schemaReview).nodes.getD 0
        defaultNC).className = schemaReview.root_model_class ∧
    ((validate_and_deduce_schema moduleReview schemaReview).nodes.getD 0
        defaultNC).field_paths = [""] ∧
    ((validate_and_deduce_schema moduleReview schemaReview).nodes.getD 0
        defaultNC).is_list_at_paths = [("", false)] := by
  have hne : (validate_and_deduce_schema moduleReview schemaReview).nodes ≠ [] := by
    intro h
    have : (validate_and_deduce_schema moduleReview schemaReview).nodes.length = 3 := rfl
    rw [h] at this
    exact absurd this (by decide)
  have hmem := getD_zero_mem _ defaultNC hne
  have hcl : ((validate_and_deduce_schema moduleReview schemaReview).nodes.getD 0
      defaultNC).className = schemaReview.root_model_class := rfl
  exact ⟨hmem, hcl,
    root_decl_paths_are_synthetic_root moduleReview schemaReview _ hmem hcl⟩

/-! ### C10 — extraction returns a (possibly empty) bucket per declared type -/

theorem init_table_has_key (nodes : List GraphNodeConfig)
    (n : GraphNodeConfig) (hn : n ∈ nodes) :
    (alookup (initState nodes).table n.className).isSome := by
  suffices h : ∀ (l : List GraphNodeConfig) (st : ExtState),
      (n ∈ l ∨ (alookup st.table n.className).isSome) →
      (alookup (l.foldl (fun st cfg =>
        { st with
          table := aset st.table cfg.className []
          seen := aset st.seen cfg.className []
          reg := aset st.reg cfg.className [] }) st).table n.className).isSome by
    exact h nodes _ (Or.inl hn)
  intro l
  induction l with
  | nil =>
      intro st h
      simp only [List.foldl_nil]
      rcases h with h | h
      · exact absurd h (List.not_mem_nil n)
      · exact h
  | cons hd tl ih =>
      intro st h
      simp only [List.foldl_cons]
      rcases h with h | h
      · rcases List.mem_cons.1 h with h | h
        · refine ih _ (Or.inr ?_)
          rw [h]
          show (alookup (aset st.table hd.className []) hd.className).isSome
          rw [alookup_aset_self]
          rfl
        · exact ih _ (Or.inl h)
      · exact ih _ (Or.inr (alookup_aset_isSome _ _ _ _ h))

theorem processItem_keeps_table_key (model : Inst)
    (allNodes : List GraphNodeConfig) (cfg : GraphNodeConfig)
    (ids times : Nat → String) (st : ExtState) (item : FieldVal) (k : String)
    (h : (alookup st.table k).isSome) :
    (alookup (processItem model allNodes cfg ids times st item).table k).isSome := by
  cases item with
  | obj inst =>
      simp only [processItem, appendRow]
      split
      · split
        · exact h
        · exact alookup_aset_isSome _ _ _ _ h
      · exact alookup_aset_isSome _ _ _ _ h
  | vnone => exact h
  | vstr s => exact h
  | objs l => exact h

theorem nodePass_keeps_table_key (model : Inst) (nodes : List GraphNodeConfig)
    (ids times : Nat → String) (st : ExtState) (k : String)
    (h : (alookup st.table k).isSome) :
    (alookup (nodes.foldl (processNode model nodes ids times) st).table k).isSome := by
  refine foldl_preserve_mem
    (P := fun st => (alookup st.table k).isSome = true) nodes _
    (fun st cfg _ hp => ?_) st h
  simp only [processNode]
  split
  · exact hp
  · refine foldl_preserve_mem
      (P := fun st => (alookup st.table k).isSome = true) _ _
      (fun st p _ hp => ?_) st hp
    simp only [processPath]
    split
    · exact hp
    · exact foldl_preserve_mem
        (P := fun st => (alookup st.table k).isSome = true) _ _
        (fun st it _ hp => processItem_keeps_table_key _ _ _ _ _ _ _ _ hp) st hp

/-- C10: the node table returned by extraction has an entry (possibly an
empty list) for every declared node type — embedded and zero-instance
declarations included. -/
theorem extraction_table_covers_all_declared_types (model : Inst)
    (nodes : List GraphNodeConfig) (relations : List GraphRelationConfig)
    (ids times : Nat → String) (n : GraphNodeConfig) (hn : n ∈ nodes) :
    (alookup (extract_graph_data model nodes relations ids times).1
      n.className).isSome := by
  simp only [extract_graph_data, extract_full]
  exact nodePass_keeps_table_key model nodes ids times _ _
    (init_table_has_key nodes n hn)

/-- Witness for C10: a legacy-embedded declaration with zero instances
still gets its (empty) bucket. -/
theorem extraction_table_covers_all_declared_types_witness :
    ({ className := "Ghost", name_from := NameFrom.field "name",
       embed_in_parent := true } : GraphNodeConfig) ∈
        [personNodeCfg,
         { className := "Ghost", name_from := NameFrom.field "name",
           embed_in_parent := true }] ∧
    (alookup (extract_graph_data instDupAlice
        [personNodeCfg,
         { className := "Ghost", name_from := NameFrom.field "name",
           embed_in_parent := true }] [] idsU timesT1).1 "Ghost").isSome := by
  refine ⟨List.mem_cons_of_mem _ (List.mem_cons_self _ _), ?_⟩
  exact extraction_table_covers_all_declared_types instDupAlice _ [] idsU timesT1
    _ (List.mem_cons_of_mem _ (List.mem_cons_self _ _))

/-! ### C2 — the duplicate-person scenario -/

/-- C2 counterexample: in the duplicate-person scenario the extraction
produces exactly 1 Person row but TWO (identical) `HAS_PERSON` edge
tuples — the inner edge loop emits one tuple per source list item and
never deduplicates edges — refuting the claimed "exactly 1 HAS_PERSON
edge tuple". -/
theorem dup_person_has_two_edge_tuples :
    ((alookup (run_pipeline moduleReview schemaReview instDupAlice idsU
        timesT1).1 "Person").getD []).length = 1 ∧
    ¬ ((run_pipeline moduleReview schemaReview instDupAlice idsU
        timesT1).2.countP (fun e => e.name == "HAS_PERSON") = 1) := by
  refine ⟨rfl, fun h => ?_⟩
  have h2 : (run_pipeline moduleReview schemaReview instDupAlice idsU
      timesT1).2.countP (fun e => e.name == "HAS_PERSON") = 2 := rfl
  exact absurd (h2.symm.trans h) (by decide)

/-- C2 amended: the duplicate-person scenario yields exactly 1 Person row
(deduplicated by name, identity `u2` of the run's supply) and exactly 2
identical HAS_PERSON edge tuples, both pointing at that single row's
identity. -/
theorem dup_person_one_row_two_edges_same_target :
    ((alookup (run_pipeline moduleReview schemaReview instDupAlice idsU
        timesT1).1 "Person").getD []).map (fun row => pyStr (idOfRow row))
      = ["u2"] ∧
    ((run_pipeline moduleReview schemaReview instDupAlice idsU
        timesT1).2.filter (fun e => e.name == "HAS_PERSON")).map
        (fun e => (e.from_type, pyStr e.from_id, e.to_type, pyStr e.to_id))
      = [("Review", "u0", "Person", "u2"), ("Review", "u0", "Person", "u2")] :=
  ⟨rfl, rfl⟩

/-! ### C1 — which deduced (from-path, to-path) pairs does the edge pass walk? -/

/-- The edges the edge-pass body yields when pointed at one specific
`(from_path, to_path)` pair of a relation. -/
def pair_edges (model : Inst) (nodes : List GraphNodeConfig)
    (reg : List (String × List (String × PVal))) (r : GraphRelationConfig)
    (pr : String × String) : List Edge :=
  processRelation model nodes reg []
    { r with fromPathAttr := some pr.1, toPathAttr := some pr.2 }

/-- The claim as stated (following the spec's wording): during edge
extraction EVERY kept `(from_path, to_path)` pair of every relation is
processed, i.e. the edges obtained from each pair all appear in the
pipeline's output. -/
def AllPairsProcessed (module : List ModelClass) (s : GraphSchema)
    (model : Inst) (ids times : Nat → String) : Prop :=
  ∀ r ∈ (validate_and_deduce_schema module s).relations,
    ∀ pr ∈ r.field_paths,
      ∀ e ∈ pair_edges model (validate_and_deduce_schema module s).nodes
          (run_pipeline_full module s model ids times).1.reg r pr,
        e ∈ (run_pipeline_full module s model ids times).2

/-- Counterexample schema for C1: `R{a: A}`, `A{name, c: C, d: D}`,
`C{name}`, `D{c2: C}` — the relation A→C deduces TWO kept pairs,
`(a, a.c)` and `(a, a.d.c2)`. -/
def rCls : ModelClass := ⟨"R", [("a", .model "A")]⟩

def aCls : ModelClass :=
  ⟨"A", [("name", .prim), ("c", .model "C"), ("d", .model "D")]⟩

def cCls : ModelClass := ⟨"C", [("name", .prim)]⟩

def dCls : ModelClass := ⟨"D", [("c2", .model "C")]⟩

def moduleRACD : List ModelClass := [rCls, aCls, cCls, dCls]

def aNodeCfg : GraphNodeConfig := { className := "A", name_from := .field "name" }

def cNodeCfg : GraphNodeConfig := { className := "C", name_from := .field "name" }

def schemaRACD : GraphSchema :=
  { root_model_class := "R",
    nodes := [aNodeCfg, cNodeCfg],
    relations := [⟨"A", "C", "REL", "", [], Option.none, Option.none⟩] }

def instRACD : Inst :=
  .mk "R" [("a", .obj (.mk "A"
    [("name", .vstr "An"),
     ("c", .obj (.mk "C" [("name", .vstr "C1n")])),
     ("d", .obj (.mk "D" [("c2", .obj (.mk "C" [("name", .vstr "C2n")]))]))]))]

def relRACD : GraphRelationConfig :=
  (validate_and_deduce_schema moduleRACD schemaRACD).relations.getD 0
    ⟨"", "", "", "", [], Option.none, Option.none⟩

/-- C1 counterexample: with two kept pairs deduced for REL, the pipeline
emits only the edge of the FIRST pair (to `C1n`, identity `u1`); the edge
the second pair `(a, a.d.c2)` yields (to `C2n`, identity `u2`, whose row
IS in the table) is absent from the output. -/
theorem second_pair_edge_not_emitted :
    ¬ AllPairsProcessed moduleRACD schemaRACD instRACD idsU timesT1 := by
  intro h
  have hrmem : relRACD ∈ (validate_and_deduce_schema moduleRACD schemaRACD).relations := by
    refine getD_zero_mem _ _ (fun hnil => ?_)
    have hlen : (validate_and_deduce_schema moduleRACD schemaRACD).relations.length = 1 := rfl
    rw [hnil] at hlen
    exact absurd hlen (by decide)
  have hpr : ("a", "a.d.c2") ∈ relRACD.field_paths := by
    rw [show relRACD.field_paths = [("a", "a.c"), ("a", "a.d.c2")] from rfl]
    exact List.mem_cons_of_mem _ (List.mem_cons_self _ _)
  have hpe : pair_edges instRACD (validate_and_deduce_schema moduleRACD schemaRACD).nodes
      (run_pipeline_full moduleRACD schemaRACD instRACD idsU timesT1).1.reg
      relRACD ("a", "a.d.c2")
      = [⟨"A", .str "u0", "C", .str "u2", "REL"⟩] := rfl
  have hmem := h relRACD hrmem ("a", "a.d.c2") hpr
      ⟨"A", .str "u0", "C", .str "u2", "REL"⟩
      (by rw [hpe]; exact List.mem_singleton.2 rfl)
  rw [show (run_pipeline_full moduleRACD schemaRACD instRACD idsU timesT1).2
      = [⟨"A", .str "u0", "C", .str "u1", "REL"⟩] from rfl] at hmem
  have := congrArg (fun e => pyStr e.to_id) (List.mem_singleton.1 hmem)
  exact absurd this (by decide)

theorem processRelation_proj_eq (model : Inst) (nodes : List GraphNodeConfig)
    (reg : List (String × List (String × PVal))) (acc : List Edge)
    (r₁ r₂ : GraphRelationConfig) (h1 : r₁.from_node = r₂.from_node)
    (h2 : r₁.to_node = r₂.to_node) (h3 : r₁.name = r₂.name)
    (h4 : r₁.fromPathAttr = r₂.fromPathAttr) (h5 : r₁.toPathAttr = r₂.toPathAttr) :
    processRelation model nodes reg acc r₁ = processRelation model nodes reg acc r₂ := by
  simp only [processRelation, fromDataOf, toDataOf, h1, h2, h3, h4, h5]

theorem head_of_take_one {α : Type _} (l : List α) : (l.take 1).head? = l.head? := by
  cases l <;> rfl

theorem prepare_relation_from_node (r : GraphRelationConfig) :
    (prepare_relation r).from_node = r.from_node := by
  cases h : r.field_paths.head? <;> simp [prepare_relation, h]

theorem prepare_relation_to_node (r : GraphRelationConfig) :
    (prepare_relation r).to_node = r.to_node := by
  cases h : r.field_paths.head? <;> simp [prepare_relation, h]

theorem prepare_relation_name (r : GraphRelationConfig) :
    (prepare_relation r).name = r.name := by
  cases h : r.field_paths.head? <;> simp [prepare_relation, h]

theorem prepare_relation_fromPathAttr (r : GraphRelationConfig) :
    (prepare_relation r).fromPathAttr =
      (match r.field_paths.head? with
       | some pr => some pr.1
       | Option.none => Option.none) := by
  cases h : r.field_paths.head? <;> simp [prepare_relation, h]

theorem prepare_relation_toPathAttr (r : GraphRelationConfig) :
    (prepare_relation r).toPathAttr =
      (match r.field_paths.head? with
       | some pr => some pr.2
       | Option.none => Option.none) := by
  cases h : r.field_paths.head? <;> simp [prepare_relation, h]

theorem processRelation_prepare_trunc (model : Inst)
    (nodes : List GraphNodeConfig) (reg : List (String × List (String × PVal)))
    (acc : List Edge) (r : GraphRelationConfig) :
    processRelation model nodes reg acc
        (prepare_relation { r with field_paths := r.field_paths.take 1 })
      = processRelation model nodes reg acc (prepare_relation r) := by
  apply processRelation_proj_eq
  · rw [prepare_relation_from_node, prepare_relation_from_node]
  · rw [prepare_relation_to_node, prepare_relation_to_node]
  · rw [prepare_relation_name, prepare_relation_name]
  · rw [prepare_relation_fromPathAttr, prepare_relation_fromPathAttr]
    show (match (r.field_paths.take 1).head? with
          | some pr => some pr.1
          | Option.none => Option.none)
        = (match r.field_paths.head? with
          | some pr => some pr.1
          | Option.none => Option.none)
    rw [head_of_take_one]
  · rw [prepare_relation_toPathAttr, prepare_relation_toPathAttr]
    show (match (r.field_paths.take 1).head? with
          | some pr => some pr.2
          | Option.none => Option.none)
        = (match r.field_paths.head? with
          | some pr => some pr.2
          | Option.none => Option.none)
    rw [head_of_take_one]

theorem foldl_congr_fun {α β : Type _} (l : List α) (f g : β → α → β)
    (h : ∀ b a, a ∈ l → f b a = g b a) : ∀ b, l.foldl f b = l.foldl g b := by
  induction l with
  | nil => intro b; rfl
  | cons hd tl ih =>
      intro b
      simp only [List.foldl_cons]
      rw [h b hd (List.mem_cons_self _ _)]
      exact ih (fun b a ha => h b a (List.mem_cons_of_mem _ ha)) _

/-- C1 amended: the pipeline's extraction output is unchanged when every
relation's deduced pair list is truncated to its FIRST element — edge
extraction processes only `field_paths[0]` of each relation, never the
later kept pairs. -/
theorem edge_pass_uses_only_first_pair (model : Inst)
    (nodes : List GraphNodeConfig) (relations : List GraphRelationConfig)
    (ids times : Nat → String) :
    create_graph_data model nodes relations ids times =
      create_graph_data model nodes
        (relations.map (fun r => { r with field_paths := r.field_paths.take 1 }))
        ids times := by
  simp only [create_graph_data, extract_graph_data, extract_full,
    prepare_relations, List.map_map, List.foldl_map]
  refine congrArg _ ?_
  exact (foldl_congr_fun relations _ _
    (fun acc r _ => processRelation_prepare_trunc _ _ _ acc r) []).symm

/-! ### C3 — rows with no obtainable deduplication value -/

/-- An instance whose single Person has the empty string as name: its
display name stringifies to `""`, so no (truthy) deduplication value is
obtainable for it. -/
def instEmptyName : Inst :=
  .mk "Review"
    [("date", .vstr "2024-02-02"),
     ("opportunity", .vnone),
     ("people", .objs [.mk "Person" [("name", .vstr "")]])]

/-- C3 counterexample: the no-dedup-value Person row IS kept (identity
`u1`) and IS registered under its own identity (`u1 ↦ u1`), and the
HAS_PERSON relation is declared with a kept path pair — yet the edge pass
emits NO edge at all: it looks endpoints up by deduplication value, which
for this instance is falsy, so the row can never be found and cannot act
as a relation endpoint. -/
theorem no_dedup_row_gets_no_edge :
    ((alookup (run_pipeline_full moduleReview schemaReview instEmptyName idsU
        timesT1).1.table "Person").getD []).map (fun r => pyStr (idOfRow r))
      = ["u1"] ∧
    (alookup (run_pipeline_full moduleReview schemaReview instEmptyName idsU
        timesT1).1.reg "Person").getD [] = [("u1", PVal.str "u1")] ∧
    ((validate_and_deduce_schema moduleReview schemaReview).relations.getD 1
      ⟨"", "", "", "", [], Option.none, Option.none⟩).field_paths
      = [("", "people")] ∧
    (run_pipeline_full moduleReview schemaReview instEmptyName idsU timesT1).2
      = [] :=
  ⟨rfl, rfl, rfl, rfl⟩

/-- C3 amended, part by part: (1) an item whose finished row has no
truthy deduplication value is always kept in the node table and its
identity registered under its own identity; (2) but such a row cannot be
reached by the edge pass — when the resolved from-endpoint's
deduplication value is falsy, the relation is skipped and contributes no
edges. -/
theorem no_dedup_row_kept_registered_but_unreachable :
    (∀ (model : Inst) (allNodes : List GraphNodeConfig)
       (cfg : GraphNodeConfig) (ids times : Nat → String) (st : ExtState)
       (inst : Inst),
       pyTruthy (rowDedup cfg
           (buildRow model allNodes cfg (ids st.ctr) (times st.ctr) inst)) = false →
       bucketOf (processItem model allNodes cfg ids times st (.obj inst))
           cfg.className
         = bucketOf st cfg.className
             ++ [buildRow model allNodes cfg (ids st.ctr) (times st.ctr) inst] ∧
       alookup (regOf (processItem model allNodes cfg ids times st (.obj inst))
           cfg.className)
           (pyStr (idOfRow
             (buildRow model allNodes cfg (ids st.ctr) (times st.ctr) inst)))
         = some (idOfRow
             (buildRow model allNodes cfg (ids st.ctr) (times st.ctr) inst))) ∧
    (∀ (model : Inst) (nodes : List GraphNodeConfig)
       (reg : List (String × List (String × PVal))) (acc : List Edge)
       (r : GraphRelationConfig) (fInfo tInfo : GraphNodeConfig)
       (d : List (String × PVal)),
       nodes.find? (fun n => n.className == r.from_node) = some fInfo →
       nodes.find? (fun n => n.className == r.to_node) = some tInfo →
       asDictF (fromDataOf model r) = some d →
       pyTruthy (endpointDedup fInfo d r.from_node) = false →
       processRelation model nodes reg acc r = acc) := by
  constructor
  · intro model allNodes cfg ids times st inst h
    simp only [processItem, h, Bool.false_eq_true, if_false, bucketOf, regOf,
      appendRow, addReg, alookup_aset_self]
    refine ⟨rfl, ?_⟩
    simp only [Option.getD_some]
    rw [alookup_aset_self]
  · intro model nodes reg acc r fInfo tInfo d hf ht hd hfalsy
    simp only [processRelation, hf, ht]
    split
    · rfl
    · by_cases hnone : (fvIsNone (fromDataOf model r) || fvIsNone (toDataOf model r)) = true
      · simp only [hnone, if_true]
      · simp only [hnone, Bool.false_eq_true, if_false, hd, regResolve, hfalsy]

/-- Witness for C3's amended theorem at concrete inputs: an empty-named
Person is kept and self-registered (part 1), and a relation whose from
side resolves to that empty-named Person emits nothing (part 2). -/
theorem no_dedup_row_kept_registered_but_unreachable_witness :
    (pyTruthy (rowDedup personNodeCfg
        (buildRow instEmptyName [personNodeCfg] personNodeCfg
          (idsU (initState [personNodeCfg]).ctr)
          (timesT1 (initState [personNodeCfg]).ctr)
          (.mk "Person" [("name", .vstr "")]))) = false ∧
     bucketOf (processItem instEmptyName [personNodeCfg] personNodeCfg idsU
         timesT1 (initState [personNodeCfg]) (.obj (.mk "Person" [("name", .vstr "")])))
         personNodeCfg.className
       = bucketOf (initState [personNodeCfg]) personNodeCfg.className
           ++ [buildRow instEmptyName [personNodeCfg] personNodeCfg
             (idsU (initState [personNodeCfg]).ctr)
             (timesT1 (initState [personNodeCfg]).ctr)
             (.mk "Person" [("name", .vstr "")])]) ∧
    processRelation (.mk "Person" [("name", .vstr "")]) [personNodeCfg] [] []
      ⟨"Person", "Person", "SELF", "", [], Option.none, Option.none⟩ = [] := by
  refine ⟨⟨rfl, ?_⟩, ?_⟩
  · exact (no_dedup_row_kept_registered_but_unreachable.1 instEmptyName
      [personNodeCfg] personNodeCfg idsU timesT1 (initState [personNodeCfg])
      (.mk "Person" [("name", .vstr "")]) rfl).1
  · exact no_dedup_row_kept_registered_but_unreachable.2
      (.mk "Person" [("name", .vstr "")]) [personNodeCfg] [] []
      ⟨"Person", "Person", "SELF", "", [], Option.none, Option.none⟩
      personNodeCfg personNodeCfg
      (dumpInst (.mk "Person" [("name", .vstr "")])) rfl rfl rfl rfl

/-! ### C8 — the loader skips rows with a null primary key -/

theorem buildCleaned_none_of_null_pk (row : Row) (acc : List (String × String))
    (hnull : ("id", PVal.none) ∈ row) (hnodup : (row.map Prod.fst).Nodup) :
    buildCleaned (some "id") acc row = Option.none := by
  induction row generalizing acc with
  | nil => exact absurd hnull (List.not_mem_nil _)
  | cons hd tl ih =>
      obtain ⟨k, v⟩ := hd
      rcases List.mem_cons.1 hnull with h | h
      · cases h
        simp [buildCleaned]
      · simp only [List.map_cons] at hnodup
        have hk : k ≠ "id" := by
          intro hkeq
          subst hkeq
          exact (List.nodup_cons.1 hnodup).1
            (List.mem_map.2 ⟨("id", PVal.none), h, rfl⟩)
        have hnodup' := (List.nodup_cons.1 hnodup).2
        cases v with
        | none =>
            simp only [buildCleaned]
            rw [if_neg (fun hh : some k = some "id" => hk (Option.some.injEq .. ▸ hh))]
            exact ih _ h hnodup'
        | str s => exact ih _ h hnodup'
        | dict fs => exact ih _ h hnodup'
        | list vs => exact ih _ h hnodup'

theorem buildCleaned_isSome_of_no_null_pk (row : Row) (acc : List (String × String))
    (h : ∀ v, ("id", v) ∈ row → v ≠ PVal.none) :
    (buildCleaned (some "id") acc row).isSome := by
  induction row generalizing acc with
  | nil => rfl
  | cons hd tl ih =>
      obtain ⟨k, v⟩ := hd
      cases v with
      | none =>
          have hk : k ≠ "id" := by
            intro hk
            subst hk
            exact h PVal.none (List.mem_cons_self _ _) rfl
          simp only [buildCleaned]
          rw [if_neg (fun hh : some k = some "id" => hk (Option.some.injEq .. ▸ hh))]
          exact ih _ (fun v hv => h v (List.mem_cons_of_mem _ hv))
      | str s => exact ih _ (fun v hv => h v (List.mem_cons_of_mem _ hv))
      | dict fs => exact ih _ (fun v hv => h v (List.mem_cons_of_mem _ hv))
      | list vs => exact ih _ (fun v hv => h v (List.mem_cons_of_mem _ hv))

/-- C8: a node row whose identity/primary-key field is null is skipped
entirely — deleting it from its batch leaves the loader's statement
sequence unchanged — while every row with a non-null identity still
yields its insert statement. -/
theorem loader_skips_null_pk_rows (nodes : List GraphNodeConfig) (nt : String)
    (pre post : List Row) (row : Row) (others : List (String × List Row))
    (rels : List Edge) (hnull : ("id", PVal.none) ∈ row)
    (hnodup : (row.map Prod.fst).Nodup) (hpk : pkFieldOf nodes nt = some "id") :
    load_graph_data ((nt, pre ++ row :: post) :: others) rels nodes
      = load_graph_data ((nt, pre ++ post) :: others) rels nodes ∧
    (∀ (nt₂ : String) (r₂ : Row), pkFieldOf nodes nt₂ = some "id" →
      (∀ v, ("id", v) ∈ r₂ → v ≠ PVal.none) →
      (nodeStmt nt₂ (some "id") r₂).isSome) := by
  constructor
  · simp only [load_graph_data, loadNodeStmts, List.foldl_cons]
    congr 1
    congr 1
    rw [hpk, List.foldl_append, List.foldl_append, List.foldl_cons]
    rw [show nodeStmt nt (some "id") row = Option.none from by
      simp only [nodeStmt, buildCleaned_none_of_null_pk row [] hnull hnodup]]
  · intro nt₂ r₂ _ hno
    simp only [nodeStmt]
    have := buildCleaned_isSome_of_no_null_pk r₂ [] hno
    cases hbc : buildCleaned (some "id") [] r₂ with
    | none => rw [hbc] at this; exact absurd this (by simp)
    | some cd => simp

/-- Witness for C8: a batch with one null-id row and one good row issues
exactly the good row's insert. -/
theorem loader_skips_null_pk_rows_witness :
    ("id", PVal.none) ∈ [("x", PVal.str "a"), ("id", PVal.none)] ∧
    load_graph_data
        [("Person", [[("x", PVal.str "a"), ("id", PVal.none)],
                     [("name", PVal.str "Bob"), ("id", PVal.str "u9")]])]
        [] [personNodeCfg]
      = load_graph_data
        [("Person", [[("name", PVal.str "Bob"), ("id", PVal.str "u9")]])]
        [] [personNodeCfg] ∧
    (nodeStmt "Person" (some "id")
      [("name", PVal.str "Bob"), ("id", PVal.str "u9")]).isSome := by
  have h := loader_skips_null_pk_rows [personNodeCfg] "Person" []
    [[("name", PVal.str "Bob"), ("id", PVal.str "u9")]]
    [("x", PVal.str "a"), ("id", PVal.none)] [] []
    (List.mem_cons_of_mem _ (List.mem_cons_self _ _)) (by decide) rfl
  refine ⟨List.mem_cons_of_mem _ (List.mem_cons_self _ _), h.1, ?_⟩
  refine h.2 "Person" _ rfl ?_
  intro v hv
  rcases List.mem_cons.1 hv with hh | hh
  · have hids : ("id" : String) = "name" := congrArg Prod.fst hh
    exact absurd hids (by decide)
  · rcases List.mem_cons.1 hh with hh | hh
    · have hv2 : v = PVal.str "u9" := congrArg Prod.snd hh
      intro hveq
      rw [hveq] at hv2
      exact PVal.noConfusion hv2
    · exact absurd hh (List.not_mem_nil _)

/-! ### C5 — first-wins deduplication yields at most one row per value -/

/-- The running invariant of the node pass, per node declaration: every
kept row's obtainable deduplication string is recorded in the seen-set,
and every seen string has exactly one row carrying it. -/
def DedupInv (cfg : GraphNodeConfig) (st : ExtState) : Prop :=
  (∀ row ∈ bucketOf st cfg.className, ∀ s, rowDedupStr cfg row = some s →
     s ∈ seenOf st cfg.className) ∧
  (∀ s ∈ seenOf st cfg.className,
     (bucketOf st cfg.className).countP
       (fun r => rowDedupStr cfg r == some s) = 1)

theorem bucket_seen_init_empty (nodes : List GraphNodeConfig) (t : String) :
    bucketOf (initState nodes) t = [] ∧ seenOf (initState nodes) t = [] := by
  simp only [initState]
  refine foldl_preserve_mem
    (P := fun st => bucketOf st t = [] ∧ seenOf st t = []) nodes _
    (fun st cfg _ hp => ?_) _ ⟨rfl, rfl⟩
  obtain ⟨h1, h2⟩ := hp
  constructor
  · show (alookup (aset st.table cfg.className []) t).getD [] = []
    by_cases ht : t = cfg.className
    · subst ht; rw [alookup_aset_self]; rfl
    · rw [alookup_aset_ne _ _ _ _ ht]; exact h1
  · show (alookup (aset st.seen cfg.className []) t).getD [] = []
    by_cases ht : t = cfg.className
    · subst ht; rw [alookup_aset_self]; rfl
    · rw [alookup_aset_ne _ _ _ _ ht]; exact h2

theorem processItem_bucket_other (model : Inst)
    (allNodes : List GraphNodeConfig) (cfg : GraphNodeConfig)
    (ids times : Nat → String) (st : ExtState) (item : FieldVal) (t : String)
    (ht : cfg.className ≠ t) :
    bucketOf (processItem model allNodes cfg ids times st item) t
        = bucketOf st t ∧
    seenOf (processItem model allNodes cfg ids times st item) t
        = seenOf st t := by
  cases item with
  | obj inst =>
      simp only [processItem, appendRow, addSeen, addReg]
      split
      · split
        · exact ⟨rfl, rfl⟩
        · constructor
          · show (alookup (aset st.table cfg.className _) t).getD [] = _
            rw [alookup_aset_ne _ _ _ _ (fun h => ht h.symm)]; rfl
          · show (alookup (aset st.seen cfg.className _) t).getD [] = _
            rw [alookup_aset_ne _ _ _ _ (fun h => ht h.symm)]; rfl
      · constructor
        · show (alookup (aset st.table cfg.className _) t).getD [] = _
          rw [alookup_aset_ne _ _ _ _ (fun h => ht h.symm)]; rfl
        · exact rfl
  | vnone => exact ⟨rfl, rfl⟩
  | vstr s => exact ⟨rfl, rfl⟩
  | objs l => exact ⟨rfl, rfl⟩

theorem processItem_dedupInv_same (model : Inst)
    (allNodes : List GraphNodeConfig) (cfg : GraphNodeConfig)
    (ids times : Nat → String) (st : ExtState) (item : FieldVal)
    (hinv : DedupInv cfg st) :
    DedupInv cfg (processItem model allNodes cfg ids times st item) := by
  obtain ⟨hi, hii⟩ := hinv
  cases item with
  | vnone => exact ⟨hi, hii⟩
  | vstr s => exact ⟨hi, hii⟩
  | objs l => exact ⟨hi, hii⟩
  | obj inst =>
      simp only [processItem]
      split
      case isTrue htr =>
        split
        case isTrue hseen => exact ⟨hi, hii⟩
        case isFalse hseen =>
          have hnotmem : pyStr (rowDedup cfg
              (buildRow model allNodes cfg (ids st.ctr) (times st.ctr) inst))
              ∉ seenOf st cfg.className :=
            fun hmem => hseen (List.elem_iff.2 hmem)
          have hrow : rowDedupStr cfg
              (buildRow model allNodes cfg (ids st.ctr) (times st.ctr) inst)
              = some (pyStr (rowDedup cfg
                (buildRow model allNodes cfg (ids st.ctr) (times st.ctr) inst))) := by
            simp only [rowDedupStr]
            rw [if_pos htr]
          constructor
          · intro row hrowmem s hs
            simp only [bucketOf, appendRow, alookup_aset_self, Option.getD_some]
              at hrowmem
            simp only [seenOf, addSeen, alookup_aset_self, Option.getD_some]
            rcases List.mem_append.1 hrowmem with hm | hm
            · exact List.mem_append_left _ (hi row hm s hs)
            · rw [List.mem_singleton.1 hm] at hs
              rw [hrow] at hs
              cases hs
              exact List.mem_append_right _ (List.mem_singleton.2 rfl)
          · intro s hsmem
            simp only [seenOf, addSeen, alookup_aset_self, Option.getD_some]
              at hsmem
            simp only [bucketOf, appendRow, alookup_aset_self, Option.getD_some,
              List.countP_append]
            rcases List.mem_append.1 hsmem with hm | hm
            · have hne : pyStr (rowDedup cfg
                  (buildRow model allNodes cfg (ids st.ctr) (times st.ctr) inst))
                  ≠ s := fun he => hnotmem (he ▸ hm)
              have hzero : (List.countP
                  (fun r => rowDedupStr cfg r == some s)
                  [buildRow model allNodes cfg (ids st.ctr) (times st.ctr) inst])
                  = 0 := by
                simp only [List.countP_cons, List.countP_nil, hrow]
                rw [show ((some (pyStr (rowDedup cfg (buildRow model allNodes cfg
                    (ids st.ctr) (times st.ctr) inst))) : Option String) == some s)
                    = false from beq_eq_false_iff_ne.2 (fun he =>
                      hne (Option.some.injEq .. ▸ he))]
                rfl
              rw [hzero]
              have hii2 := hii s hm
              rw [show bucketOf st cfg.className
                = (alookup st.table cfg.className).getD [] from rfl] at hii2
              rw [hii2]
            · have hs2 : s = pyStr (rowDedup cfg
                  (buildRow model allNodes cfg (ids st.ctr) (times st.ctr) inst)) :=
                List.mem_singleton.1 hm
              have hzero : (bucketOf st cfg.className).countP
                  (fun r => rowDedupStr cfg r == some s) = 0 := by
                by_contra hpos
                obtain ⟨row2, hrow2, hp⟩ := List.countP_pos_iff.1
                  (Nat.pos_of_ne_zero hpos)
                exact hnotmem (hs2 ▸ hi row2 hrow2 s (beq_iff_eq.1 hp))
              rw [show bucketOf st cfg.className
                = (alookup st.table cfg.className).getD [] from rfl] at hzero
              rw [hzero]
              simp only [List.countP_cons, List.countP_nil, hrow]
              rw [show ((some (pyStr (rowDedup cfg (buildRow model allNodes cfg
                  (ids st.ctr) (times st.ctr) inst))) : Option String) == some s)
                  = true from beq_iff_eq.2 (congrArg some hs2.symm)]
              rfl
      case isFalse htr =>
        have hrow : rowDedupStr cfg
            (buildRow model allNodes cfg (ids st.ctr) (times st.ctr) inst)
            = Option.none := by
          simp only [rowDedupStr]
          rw [if_neg htr]
        constructor
        · intro row hrowmem s hs
          simp only [bucketOf, appendRow, alookup_aset_self, Option.getD_some]
            at hrowmem
          rcases List.mem_append.1 hrowmem with hm | hm
          · exact hi row hm s hs
          · rw [List.mem_singleton.1 hm, hrow] at hs
            cases hs
        · intro s hsmem
          simp only [bucketOf, appendRow, alookup_aset_self, Option.getD_some,
            List.countP_append]
          rw [show (List.countP (fun r => rowDedupStr cfg r == some s)
              [buildRow model allNodes cfg (ids st.ctr) (times st.ctr) inst]) = 0
            from by simp [List.countP_cons, hrow]]
          exact hii s hsmem

theorem processNode_other_preserves (model : Inst)
    (nodes : List GraphNodeConfig) (ids times : Nat → String) (st : ExtState)
    (cfg2 : GraphNodeConfig) (t : String) (ht : cfg2.className ≠ t) :
    bucketOf (processNode model nodes ids times st cfg2) t = bucketOf st t ∧
    seenOf (processNode model nodes ids times st cfg2) t = seenOf st t := by
  simp only [processNode]
  split
  · exact ⟨rfl, rfl⟩
  · refine foldl_preserve_mem
      (P := fun st2 => bucketOf st2 t = bucketOf st t ∧ seenOf st2 t = seenOf st t)
      _ _ (fun st2 p _ hp => ?_) st ⟨rfl, rfl⟩
    simp only [processPath]
    split
    · exact hp
    · refine foldl_preserve_mem
        (P := fun st2 => bucketOf st2 t = bucketOf st t ∧ seenOf st2 t = seenOf st t)
        _ _ (fun st3 it _ hp3 => ?_) st2 hp
      have := processItem_bucket_other model nodes cfg2 ids times st3 it t ht
      exact ⟨this.1.trans hp3.1, this.2.trans hp3.2⟩

theorem DedupInv_of_eq (cfg : GraphNodeConfig) (st st2 : ExtState)
    (hb : bucketOf st2 cfg.className = bucketOf st cfg.className)
    (hs : seenOf st2 cfg.className = seenOf st cfg.className)
    (h : DedupInv cfg st) : DedupInv cfg st2 := by
  obtain ⟨hi, hii⟩ := h
  rw [DedupInv, hb, hs]
  exact ⟨hi, hii⟩

theorem extract_dedupInv (model : Inst) (nodes : List GraphNodeConfig)
    (relations : List GraphRelationConfig) (ids times : Nat → String)
    (cfg : GraphNodeConfig) (hmem : cfg ∈ nodes)
    (huniq : (nodes.map GraphNodeConfig.className).Nodup) :
    DedupInv cfg (extract_full model nodes relations ids times).1 := by
  simp only [extract_full]
  refine foldl_preserve_mem (P := DedupInv cfg) nodes _
    (fun st cfg2 hmem2 hp => ?_) _ ?_
  · by_cases hcl : cfg2.className = cfg.className
    · have heq : cfg2 = cfg := List.inj_on_of_nodup_map huniq hmem2 hmem hcl
      subst heq
      simp only [processNode]
      split
      · exact hp
      · refine foldl_preserve_mem (P := DedupInv cfg2) _ _
          (fun st2 p _ hp2 => ?_) st hp
        simp only [processPath]
        split
        · exact hp2
        · exact foldl_preserve_mem (P := DedupInv cfg2) _ _
            (fun st3 it _ hp3 =>
              processItem_dedupInv_same model nodes cfg2 ids times st3 it hp3)
            st2 hp2
    · obtain ⟨hb, hs⟩ :=
        processNode_other_preserves model nodes ids times st cfg2 cfg.className hcl
      exact DedupInv_of_eq cfg st _ hb hs hp
  · obtain ⟨hb, hs⟩ := bucket_seen_init_empty nodes cfg.className
    constructor
    · intro row hrow
      rw [hb] at hrow
      exact absurd hrow (List.not_mem_nil _)
    · intro s hsmem
      rw [hs] at hsmem
      exact absurd hsmem (List.not_mem_nil _)

/-- C5 amended: within one extraction run, for every node declaration
(in a declaration set with distinct type names) and every string `s`, at
most one row of that type carries `s` as its TRUTHY stringified
deduplication value — and exactly one as soon as `s` was recorded as the
deduplication string of a processed item (first wins, duplicates are
dropped, no merge).  Deduplication is guarded by Python truthiness, not
presence: items whose deduplication value is falsy (for instance the
empty string) bypass the seen-set entirely and are ALL kept, as the
counterexample below shows, so the unqualified per-value uniqueness of
the original claim fails. -/
theorem dedup_value_has_at_most_one_row (model : Inst)
    (nodes : List GraphNodeConfig) (relations : List GraphRelationConfig)
    (ids times : Nat → String) (cfg : GraphNodeConfig) (s : String)
    (hmem : cfg ∈ nodes)
    (huniq : (nodes.map GraphNodeConfig.className).Nodup) :
    (bucketOf (extract_full model nodes relations ids times).1
        cfg.className).countP (fun r => rowDedupStr cfg r == some s) ≤ 1 ∧
    (s ∈ seenOf (extract_full model nodes relations ids times).1 cfg.className →
      (bucketOf (extract_full model nodes relations ids times).1
        cfg.className).countP (fun r => rowDedupStr cfg r == some s) = 1) := by
  obtain ⟨hi, hii⟩ := extract_dedupInv model nodes relations ids times cfg hmem huniq
  constructor
  · by_cases hs : s ∈ seenOf (extract_full model nodes relations ids times).1
        cfg.className
    · exact Nat.le_of_eq (hii s hs)
    · have hzero : (bucketOf (extract_full model nodes relations ids times).1
          cfg.className).countP (fun r => rowDedupStr cfg r == some s) = 0 := by
        by_contra hpos
        obtain ⟨row, hrowm, hp⟩ := List.countP_pos_iff.1 (Nat.pos_of_ne_zero hpos)
        exact hs (hi row hrowm s (beq_iff_eq.1 hp))
      rw [hzero]
      exact Nat.zero_le 1
  · exact hii s

/-- The Person declaration as schema validation deduces it for the
Review root: one plural path `people`. -/
def personNodeCfgV : GraphNodeConfig :=
  { personNodeCfg with
    field_paths := ["people"]
    is_list_at_paths := [("people", true)] }

/-- Witness for C5: in the duplicate-Alice run there is exactly one
Person row whose deduplication value is "Alice". -/
theorem dedup_value_has_at_most_one_row_witness :
    personNodeCfgV ∈ [personNodeCfgV] ∧
    ([personNodeCfgV].map GraphNodeConfig.className).Nodup ∧
    "Alice" ∈ seenOf (extract_full instDupAlice [personNodeCfgV]
      [] idsU timesT1).1 personNodeCfgV.className ∧
    (bucketOf (extract_full instDupAlice [personNodeCfgV] [] idsU timesT1).1
      personNodeCfgV.className).countP
      (fun r => rowDedupStr personNodeCfgV r == some "Alice") = 1 := by
  have h := dedup_value_has_at_most_one_row instDupAlice [personNodeCfgV] []
    idsU timesT1 personNodeCfgV "Alice" (List.mem_cons_self _ _) (by decide)
  have hmem : "Alice" ∈ seenOf (extract_full instDupAlice [personNodeCfgV]
      [] idsU timesT1).1 personNodeCfgV.className := by
    rw [show seenOf (extract_full instDupAlice [personNodeCfgV] [] idsU
      timesT1).1 personNodeCfgV.className = ["Alice"] from rfl]
    exact List.mem_cons_self _ _
  exact ⟨List.mem_cons_self _ _, by decide, hmem, h.2 hmem⟩

/-- The duplicate empty-named persons: `people = [Person(""), Person("")]`.
Both items stringify their deduplication value (the display name) to the
same falsy `""`. -/
def instTwoEmptyNames : Inst :=
  .mk "Review"
    [("date", .vstr "2024-01-01"),
     ("opportunity", .vnone),
     ("people", .objs [.mk "Person" [("name", .vstr "")],
                       .mk "Person" [("name", .vstr "")]])]

/-- C5 as stated: within one run, for every string `s`, the node table
holds at most one row of the declared type whose stringified
deduplication value is `s` (so two or more extracted items sharing `s`
leave exactly one row). -/
def claimC5_at (st : ExtState) (cfg : GraphNodeConfig) : Prop :=
  ∀ s, (bucketOf st cfg.className).countP
    (fun r => pyStr (rowDedup cfg r) == s) ≤ 1

/-- C5 counterexample: two items with the SAME stringified deduplication
value `""` (two empty-named persons) both end up in the table, because
the code guards deduplication by truthiness (`if dedup_value:`) and a
falsy value skips the seen-set — the table keeps two Person rows whose
stringified deduplication value is `""`, not exactly one. -/
theorem same_falsy_dedup_string_keeps_both_rows :
    ¬ claimC5_at (extract_full instTwoEmptyNames [personNodeCfgV] [] idsU
      timesT1).1 personNodeCfgV := by
  intro h
  exact absurd (h "") (by decide)

/-! ### Lemmas about the built row's system fields -/

theorem alookup_mem {β : Type} (l : List (String × β)) (k : String) (v : β)
    (h : alookup l k = some v) : (k, v) ∈ l := by
  induction l with
  | nil => cases h
  | cons hd tl ih =>
      obtain ⟨k₂, v₂⟩ := hd
      by_cases hk : k₂ = k
      · subst hk
        simp only [alookup, if_pos rfl] at h
        cases h
        exact List.mem_cons_self _ _
      · simp only [alookup, if_neg hk] at h
        exact List.mem_cons_of_mem _ (ih h)

theorem mem_aset {β : Type} (l : List (String × β)) (k : String) (v : β)
    (kv : String × β) (h : kv ∈ aset l k v) : kv = (k, v) ∨ kv ∈ l := by
  induction l with
  | nil =>
      simp only [aset] at h
      exact Or.inl (List.mem_singleton.1 h)
  | cons hd tl ih =>
      obtain ⟨k₂, v₂⟩ := hd
      by_cases hk : k₂ = k
      · subst hk
        simp only [aset, if_pos rfl] at h
        rcases List.mem_cons.1 h with h | h
        · exact Or.inl (h.trans rfl)
        · exact Or.inr (List.mem_cons_of_mem _ h)
      · simp only [aset, if_neg hk] at h
        rcases List.mem_cons.1 h with h | h
        · exact Or.inr (h ▸ List.mem_cons_self _ _)
        · rcases ih h with h | h
          · exact Or.inl h
          · exact Or.inr (List.mem_cons_of_mem _ h)

theorem foldl_eq_self {α σ : Type _} (l : List α) (f : σ → α → σ) (s : σ)
    (h : ∀ s a, a ∈ l → f s a = s) : l.foldl f s = s := by
  induction l generalizing s with
  | nil => rfl
  | cons hd tl ih =>
      simp only [List.foldl_cons]
      rw [h s hd (List.mem_cons_self _ _)]
      exact ih s (fun s a ha => h s a (List.mem_cons_of_mem _ ha))

/-- With no legacy `embed_in_parent` declarations the legacy embedding
step is the identity. -/
theorem add_embedded_legacy_id (row : List (String × PVal)) (model : Inst)
    (all_nodes : List GraphNodeConfig) (parent_node : GraphNodeConfig)
    (hleg : ∀ n ∈ all_nodes, n.embed_in_parent = false) :
    add_embedded_legacy row model all_nodes parent_node = row := by
  refine foldl_eq_self all_nodes _ row (fun acc en hen => ?_)
  simp [hleg en hen]

theorem alookup_eraseFold_ne (l : List String) (row : List (String × PVal))
    (k : String) (h : k ∉ l) :
    alookup (l.foldl (fun acc f => aerase acc f) row) k = alookup row k := by
  induction l generalizing row with
  | nil => rfl
  | cons hd tl ih =>
      simp only [List.foldl_cons]
      rw [ih _ (fun hmem => h (List.mem_cons_of_mem _ hmem)),
        alookup_aerase_ne _ _ _ (fun he => h (by rw [he]; exact List.mem_cons_self _ _))]

theorem alookup_mergeWithPre_ne (row : List (String × PVal)) (pre : String)
    (d : List (String × PVal)) (k : String)
    (h : ∀ kv ∈ d, pre ++ kv.1 ≠ k) :
    alookup (mergeWithPre row pre d) k = alookup row k := by
  induction d generalizing row with
  | nil => rfl
  | cons hd tl ih =>
      simp only [mergeWithPre, List.foldl_cons]
      rw [show List.foldl (fun acc kv => aset acc (pre ++ kv.1) kv.2)
          (aset row (pre ++ hd.1) hd.2) tl
        = mergeWithPre (aset row (pre ++ hd.1) hd.2) pre tl from rfl]
      rw [ih _ (fun kv hkv => h kv (List.mem_cons_of_mem _ hkv)),
        alookup_aset_ne _ _ _ _ (fun he =>
          h hd (List.mem_cons_self _ _) (he.symm))]

theorem underscore_data : ("_" : String).data = [Char.ofNat 95] := rfl

/-- A merged embedded key `a ++ "_" ++ b` is never the system key "id". -/
theorem embedded_key_ne_id (a b : String) : (a ++ "_") ++ b ≠ "id" := by
  intro h
  have hd := congrArg String.data h
  rw [String.data_append, String.data_append, underscore_data] at hd
  cases ha : a.data with
  | nil =>
      rw [ha] at hd
      simp only [List.nil_append, List.cons_append] at hd
      have := congrArg List.head? hd
      simp only [List.head?_cons] at this
      cases this
  | cons c cs =>
      rw [ha] at hd
      simp only [List.cons_append] at hd
      have h1 := List.cons.injEq .. ▸ hd
      obtain ⟨hc, hrest⟩ := h1
      cases cs with
      | nil =>
          simp only [List.nil_append, List.cons_append] at hrest
          have := congrArg List.head? hrest
          simp only [List.head?_cons] at this
          cases this
      | cons c2 cs2 =>
          simp only [List.cons_append] at hrest
          have h2 := List.cons.injEq .. ▸ hrest
          obtain ⟨_, hrest2⟩ := h2
          have := congrArg List.length hrest2
          simp only [List.length_append, List.length_cons, List.length_nil] at this
          omega

/-- A merged embedded key from a non-empty field name that does not start
with an underscore never collides with an underscore-initial system key. -/
theorem embedded_key_ne_underscore_initial (a b t : String)
    (hne : a.data ≠ []) (hhd : a.data.head? ≠ some (Char.ofNat 95))
    (ht : t.data.head? = some (Char.ofNat 95)) : (a ++ "_") ++ b ≠ t := by
  intro h
  have hd := congrArg String.data h
  rw [String.data_append, String.data_append, underscore_data] at hd
  cases ha : a.data with
  | nil => exact hne ha
  | cons c cs =>
      rw [ha] at hd
      simp only [List.cons_append] at hd
      have := congrArg List.head? hd
      rw [List.head?_cons, ht] at this
      cases this
      rw [ha] at hhd
      exact hhd rfl

theorem add_embedded_new_lookup_id (row : List (String × PVal)) (model : Inst)
    (pn : GraphNodeConfig) :
    alookup (add_embedded_new row model pn) "id" = alookup row "id" := by
  simp only [add_embedded_new]
  split
  · rfl
  · refine foldl_preserve_mem
      (P := fun acc => alookup acc "id" = alookup row "id") _ _
      (fun acc fe _ hp => ?_) row rfl
    split
    · rw [alookup_mergeWithPre_ne _ _ _ _
        (fun kv _ => embedded_key_ne_id fe.1 kv.1)]
      exact hp
    · exact hp

theorem add_embedded_new_lookup_underscore (row : List (String × PVal))
    (model : Inst) (pn : GraphNodeConfig) (t : String)
    (ht : t.data.head? = some (Char.ofNat 95))
    (hemb : ∀ fe ∈ pn.embedded, fe.1.data ≠ [] ∧
      fe.1.data.head? ≠ some (Char.ofNat 95)) :
    alookup (add_embedded_new row model pn) t = alookup row t := by
  simp only [add_embedded_new]
  split
  · rfl
  · refine foldl_preserve_mem
      (P := fun acc => alookup acc t = alookup row t) _ _
      (fun acc fe hfe hp => ?_) row rfl
    split
    · rw [alookup_mergeWithPre_ne _ _ _ _ (fun kv _ =>
        embedded_key_ne_underscore_initial fe.1 kv.1 t
          (hemb fe hfe).1 (hemb fe hfe).2 ht)]
      exact hp
    · exact hp

/-- The finished row's identity field: the fresh identity survives the
whole mutation chain (given "id" is not excluded and no legacy
embedding). -/
theorem buildRow_id (model : Inst) (allNodes : List GraphNodeConfig)
    (cfg : GraphNodeConfig) (idv now : String) (inst : Inst)
    (hexc : "id" ∉ cfg.excluded_fields)
    (hleg : ∀ n ∈ allNodes, n.embed_in_parent = false) :
    alookup (buildRow model allNodes cfg idv now inst) "id"
      = some (PVal.str idv) := by
  simp only [buildRow, add_embedded_fields]
  rw [alookup_aset_ne _ _ _ _ (by decide),
    alookup_aset_ne _ _ _ _ (by decide),
    add_embedded_legacy_id _ _ _ _ hleg,
    add_embedded_new_lookup_id,
    alookup_eraseFold_ne _ _ _ hexc,
    alookup_aset_ne _ _ _ _ (by decide),
    alookup_aset_self]

/-- The finished row's display-name field: the computed name (always a
string) survives the whole mutation chain. -/
theorem buildRow_name (model : Inst) (allNodes : List GraphNodeConfig)
    (cfg : GraphNodeConfig) (idv now : String) (inst : Inst)
    (hexc : "_name" ∉ cfg.excluded_fields)
    (hleg : ∀ n ∈ allNodes, n.embed_in_parent = false)
    (hemb : ∀ fe ∈ cfg.embedded, fe.1.data ≠ [] ∧
      fe.1.data.head? ≠ some (Char.ofNat 95)) :
    alookup (buildRow model allNodes cfg idv now inst) "_name"
      = some (PVal.str (cfg.get_name_value
          (aset (dumpInst inst) "id" (PVal.str idv)) cfg.className)) := by
  simp only [buildRow, add_embedded_fields]
  rw [alookup_aset_ne _ _ _ _ (by decide),
    alookup_aset_ne _ _ _ _ (by decide),
    add_embedded_legacy_id _ _ _ _ hleg,
    add_embedded_new_lookup_underscore _ _ _ _ (by decide) hemb,
    alookup_eraseFold_ne _ _ _ hexc,
    alookup_aset_self]

/-! ### C6 — emitted edges reference identities of rows in the table -/

/-- Node-pass invariant: every registry entry is a string identity that
is the `id` field of some row of its type already in the table. -/
def RegInv (st : ExtState) : Prop :=
  ∀ t kv, kv ∈ regOf st t →
    (∃ s, kv.2 = PVal.str s) ∧
    ∃ row ∈ bucketOf st t, alookup row "id" = some kv.2

theorem reg_init_empty (nodes : List GraphNodeConfig) (t : String) :
    regOf (initState nodes) t = [] := by
  simp only [initState]
  refine foldl_preserve_mem (P := fun st => regOf st t = []) nodes _
    (fun st cfg _ hp => ?_) _ rfl
  show (alookup (aset st.reg cfg.className []) t).getD [] = []
  by_cases ht : t = cfg.className
  · subst ht; rw [alookup_aset_self]; rfl
  · rw [alookup_aset_ne _ _ _ _ ht]; exact hp

theorem processItem_regInv (model : Inst) (allNodes : List GraphNodeConfig)
    (cfg : GraphNodeConfig) (ids times : Nat → String) (st : ExtState)
    (item : FieldVal) (hexc : "id" ∉ cfg.excluded_fields)
    (hleg : ∀ n ∈ allNodes, n.embed_in_parent = false)
    (hinv : RegInv st) : RegInv (processItem model allNodes cfg ids times st item) := by
  cases item with
  | vnone => exact hinv
  | vstr s => exact hinv
  | objs l => exact hinv
  | obj inst =>
      have hid := buildRow_id model allNodes cfg (ids st.ctr) (times st.ctr)
        inst hexc hleg
      have hidrow : idOfRow (buildRow model allNodes cfg (ids st.ctr)
          (times st.ctr) inst) = PVal.str (ids st.ctr) := by
        simp only [idOfRow, hid, Option.getD_some]
      simp only [processItem]
      split
      case isTrue htr =>
        split
        case isTrue hseen => exact hinv
        case isFalse hseen =>
          intro t kv hkv
          by_cases ht : t = cfg.className
          · subst ht
            simp only [regOf, addReg, alookup_aset_self, Option.getD_some] at hkv
            rcases mem_aset _ _ _ _ hkv with hnew | hold
            · subst hnew
              refine ⟨⟨ids st.ctr, hidrow⟩, ?_⟩
              refine ⟨buildRow model allNodes cfg (ids st.ctr) (times st.ctr)
                inst, ?_, ?_⟩
              · simp only [bucketOf, appendRow, alookup_aset_self, Option.getD_some]
                exact List.mem_append_right _ (List.mem_singleton.2 rfl)
              · rw [hid, hidrow]
            · obtain ⟨hs, row, hrowm, hrowid⟩ := hinv _ kv hold
              refine ⟨hs, row, ?_, hrowid⟩
              simp only [bucketOf, appendRow, alookup_aset_self, Option.getD_some]
              exact List.mem_append_left _ hrowm
          · have hkv2 : kv ∈ regOf st t := by
              simp only [regOf, addReg, alookup_aset_ne _ _ _ _ ht] at hkv
              exact hkv
            obtain ⟨hs, row, hrowm, hrowid⟩ := hinv _ kv hkv2
            refine ⟨hs, row, ?_, hrowid⟩
            simp only [bucketOf, appendRow, alookup_aset_ne _ _ _ _ ht]
            exact hrowm
      case isFalse htr =>
        intro t kv hkv
        by_cases ht : t = cfg.className
        · subst ht
          simp only [regOf, addReg, alookup_aset_self, Option.getD_some] at hkv
          rcases mem_aset _ _ _ _ hkv with hnew | hold
          · subst hnew
            refine ⟨⟨ids st.ctr, hidrow⟩, ?_⟩
            refine ⟨buildRow model allNodes cfg (ids st.ctr) (times st.ctr)
              inst, ?_, ?_⟩
            · simp only [bucketOf, appendRow, alookup_aset_self, Option.getD_some]
              exact List.mem_append_right _ (List.mem_singleton.2 rfl)
            · rw [hid, hidrow]
          · obtain ⟨hs, row, hrowm, hrowid⟩ := hinv _ kv hold
            refine ⟨hs, row, ?_, hrowid⟩
            simp only [bucketOf, appendRow, alookup_aset_self, Option.getD_some]
            exact List.mem_append_left _ hrowm
        · have hkv2 : kv ∈ regOf st t := by
            simp only [regOf, addReg, alookup_aset_ne _ _ _ _ ht] at hkv
            exact hkv
          obtain ⟨hs, row, hrowm, hrowid⟩ := hinv _ kv hkv2
          refine ⟨hs, row, ?_, hrowid⟩
          simp only [bucketOf, appendRow, alookup_aset_ne _ _ _ _ ht]
          exact hrowm

theorem nodePass_regInv (model : Inst) (nodes : List GraphNodeConfig)
    (ids times : Nat → String)
    (hexc : ∀ n ∈ nodes, "id" ∉ n.excluded_fields)
    (hleg : ∀ n ∈ nodes, n.embed_in_parent = false) :
    RegInv (nodes.foldl (processNode model nodes ids times) (initState nodes)) := by
  refine foldl_preserve_mem (P := RegInv) nodes _ (fun st cfg hcfg hp => ?_) _ ?_
  · simp only [processNode]
    split
    · exact hp
    · refine foldl_preserve_mem (P := RegInv) _ _ (fun st2 p _ hp2 => ?_) st hp
      simp only [processPath]
      split
      · exact hp2
      · exact foldl_preserve_mem (P := RegInv) _ _
          (fun st3 it _ hp3 => processItem_regInv model nodes cfg ids times st3
            it (hexc cfg hcfg) hleg hp3) st2 hp2
  · intro t kv hkv
    rw [reg_init_empty nodes t] at hkv
    exact absurd hkv (List.not_mem_nil _)

/-- A single edge tuple references string identities of rows present in
the node table of the given state. -/
def EdgeRefsTable (st : ExtState) (e : Edge) : Prop :=
  ((∃ s, e.from_id = PVal.str s) ∧
    ∃ row ∈ bucketOf st e.from_type, alookup row "id" = some e.from_id) ∧
  ((∃ s, e.to_id = PVal.str s) ∧
    ∃ row ∈ bucketOf st e.to_type, alookup row "id" = some e.to_id)

/-- Soundness of a successful registry resolution. -/
theorem regResolve_sound (st : ExtState) (t : String) (v idv : PVal)
    (hinv : RegInv st) (h : regResolve st.reg t v = some idv) :
    (∃ s, idv = PVal.str s) ∧
    ∃ row ∈ bucketOf st t, alookup row "id" = some idv := by
  by_cases htr : pyTruthy v = true
  · cases heq : alookup ((alookup st.reg t).getD []) (pyStr v) with
    | none =>
        simp only [regResolve, if_pos htr, heq] at h
        cases h
    | some idv2 =>
        simp only [regResolve, if_pos htr, heq] at h
        split at h
        · injection h with h2
          exact h2 ▸ hinv t (pyStr v, idv2) (alookup_mem _ _ _ heq)
        · cases h
  · simp only [regResolve, if_neg htr] at h
    cases h

theorem processToItem_sound (st : ExtState) (tInfo : GraphNodeConfig)
    (from_type : String) (from_id : PVal) (to_type rel_name : String)
    (acc : List Edge) (to_item : FieldVal) (hinv : RegInv st)
    (P : Edge → Prop)
    (hP : ∀ idv, (∃ s, idv = PVal.str s) →
      (∃ row ∈ bucketOf st to_type, alookup row "id" = some idv) →
      P ⟨from_type, from_id, to_type, idv, rel_name⟩)
    (hacc : ∀ e ∈ acc, P e) :
    ∀ e ∈ processToItem st.reg tInfo from_type from_id to_type rel_name acc
      to_item, P e := by
  intro e he
  simp only [processToItem] at he
  split at he
  · exact hacc e he
  · split at he
    · exact hacc e he
    · split at he
      case _ to_id hres =>
        rcases List.mem_append.1 he with hm | hm
        · exact hacc e hm
        · rw [List.mem_singleton.1 hm]
          obtain ⟨hs, hrow⟩ := regResolve_sound st to_type _ to_id hinv hres
          exact hP to_id hs hrow
      case _ => exact hacc e he

theorem processRelation_sound (model : Inst) (nodesL : List GraphNodeConfig)
    (st : ExtState) (acc : List Edge) (r : GraphRelationConfig)
    (hinv : RegInv st) (hacc : ∀ e ∈ acc, EdgeRefsTable st e) :
    ∀ e ∈ processRelation model nodesL st.reg acc r, EdgeRefsTable st e := by
  intro e he
  simp only [processRelation] at he
  split at he
  · rename_i fInfo tInfo hfeq hteq
    split at he
    · exact hacc e he
    · split at he
      · exact hacc e he
      · split at he
        · exact hacc e he
        · split at he
          · exact hacc e he
          · rename_i from_dict hdict from_id hres
            refine foldl_preserve_mem
              (P := fun (a : List Edge) => ∀ e2 ∈ a, EdgeRefsTable st e2)
              _ _ (fun a it _ ha => ?_) acc hacc e he
            refine processToItem_sound st tInfo r.from_node from_id r.to_node
              r.name a it hinv (EdgeRefsTable st) (fun idv hs hrow => ?_) ha
            obtain ⟨hfs, hfrow⟩ := regResolve_sound st r.from_node _ from_id
              hinv hres
            exact ⟨⟨hfs, hfrow⟩, hs, hrow⟩
  · exact hacc e he

/-- C6 (its provable direction, which is the claim's "in particular"
invariant): every emitted edge tuple's from-identity and to-identity are
non-null string identities equal to the `id` field of some row present in
the returned node table — an edge never references an identity absent
from the table.  Hypotheses: the declarations use no legacy
`embed_in_parent` and never exclude the "id" field. -/
theorem edges_reference_extracted_rows (model : Inst)
    (nodes : List GraphNodeConfig) (relations : List GraphRelationConfig)
    (ids times : Nat → String)
    (hexc : ∀ n ∈ nodes, "id" ∉ n.excluded_fields)
    (hleg : ∀ n ∈ nodes, n.embed_in_parent = false) :
    ∀ e ∈ (extract_graph_data model nodes relations ids times).2,
      EdgeRefsTable (nodes.foldl (processNode model nodes ids times)
        (initState nodes)) e := by
  have hinv := nodePass_regInv model nodes ids times hexc hleg
  simp only [extract_graph_data, extract_full]
  refine foldl_preserve_mem
    (P := fun (acc : List Edge) => ∀ e ∈ acc,
      EdgeRefsTable (nodes.foldl (processNode model nodes ids times)
        (initState nodes)) e)
    relations _ (fun acc r _ hacc => ?_) []
    (fun e he => absurd he (List.not_mem_nil _))
  exact processRelation_sound model nodes _ acc r hinv hacc

/-- The Review declaration as schema validation deduces it: the root
path, with `opportunity` and `people` excluded as relation-handled. -/
def reviewNodeCfgV : GraphNodeConfig :=
  { reviewNodeCfg with
    field_paths := [""]
    is_list_at_paths := [("", false)]
    excluded_fields := ["opportunity", "people"] }

/-- The HAS_PERSON relation as `create_graph` prepares it. -/
def hasPersonRelV : GraphRelationConfig :=
  ⟨"Review", "Person", "HAS_PERSON", "", [("", "people")], some "", some "people"⟩

/-- Witness for C6: in the duplicate-Alice run the emitted HAS_PERSON
edge references the Review row `u0` and the Person row `u1`, both present
in the node table. -/
theorem edges_reference_extracted_rows_witness :
    EdgeRefsTable ([reviewNodeCfgV, personNodeCfgV].foldl
      (processNode instDupAlice [reviewNodeCfgV, personNodeCfgV] idsU timesT1)
      (initState [reviewNodeCfgV, personNodeCfgV]))
      ⟨"Review", PVal.str "u0", "Person", PVal.str "u1", "HAS_PERSON"⟩ := by
  refine edges_reference_extracted_rows instDupAlice
    [reviewNodeCfgV, personNodeCfgV] [hasPersonRelV] idsU timesT1
    (fun n hn => ?_) (fun n hn => ?_)
    ⟨"Review", PVal.str "u0", "Person", PVal.str "u1", "HAS_PERSON"⟩ ?_
  · rcases List.mem_cons.1 hn with h | hn2
    · subst h; decide
    · rcases List.mem_cons.1 hn2 with h | hn3
      · subst h; decide
      · exact absurd hn3 (List.not_mem_nil _)
  · rcases List.mem_cons.1 hn with h | hn2
    · subst h; rfl
    · rcases List.mem_cons.1 hn2 with h | hn3
      · subst h; rfl
      · exact absurd hn3 (List.not_mem_nil _)
  · rw [show (extract_graph_data instDupAlice [reviewNodeCfgV, personNodeCfgV]
      [hasPersonRelV] idsU timesT1).2
      = [⟨"Review", PVal.str "u0", "Person", PVal.str "u1", "HAS_PERSON"⟩,
         ⟨"Review", PVal.str "u0", "Person", PVal.str "u1", "HAS_PERSON"⟩]
      from rfl]
    exact List.mem_cons_self _ _

/-- The claim's biconditional at one extraction output: an edge of the
relation is emitted if and only if both endpoint types have extracted
rows with non-null identities. -/
def claimC6_at (tbl : List (String × List Row)) (edges : List Edge)
    (fromType toType relName : String) : Prop :=
  ((∃ row ∈ (alookup tbl fromType).getD [],
      ∃ s, alookup row "id" = some (PVal.str s)) ∧
   (∃ row ∈ (alookup tbl toType).getD [],
      ∃ s, alookup row "id" = some (PVal.str s)))
  ↔ (∃ e ∈ edges, e.name = relName)

/-- A second empty-named-person instance (for the C6 direction of the
failure). -/
def instEmptyName2 : Inst :=
  .mk "Review"
    [("date", .vstr "2024-03-03"),
     ("opportunity", .vnone),
     ("people", .objs [.mk "Person" [("name", .vstr "")]])]

/-- C6 counterexample (the claimed "if and only if" fails in the `if`
direction): both the Review row and the empty-named Person row are
extracted with non-null identities, the HAS_PERSON relation is declared
and prepared, yet no HAS_PERSON edge is emitted. -/
theorem both_endpoints_extracted_yet_no_edge :
    ¬ claimC6_at
      (run_pipeline moduleReview schemaReview instEmptyName2 idsU timesT1).1
      (run_pipeline moduleReview schemaReview instEmptyName2 idsU timesT1).2
      "Review" "Person" "HAS_PERSON" := by
  intro h
  have hrevne : ((alookup (run_pipeline moduleReview schemaReview instEmptyName2
      idsU timesT1).1 "Review").getD []) ≠ [] := by
    intro hnil
    have hlen : ((alookup (run_pipeline moduleReview schemaReview instEmptyName2
      idsU timesT1).1 "Review").getD []).length = 1 := rfl
    rw [hnil] at hlen
    exact absurd hlen (by decide)
  have hperne : ((alookup (run_pipeline moduleReview schemaReview instEmptyName2
      idsU timesT1).1 "Person").getD []) ≠ [] := by
    intro hnil
    have hlen : ((alookup (run_pipeline moduleReview schemaReview instEmptyName2
      idsU timesT1).1 "Person").getD []).length = 1 := rfl
    rw [hnil] at hlen
    exact absurd hlen (by decide)
  obtain ⟨e, hmem, -⟩ := h.mp
    ⟨⟨((alookup (run_pipeline moduleReview schemaReview instEmptyName2 idsU
        timesT1).1 "Review").getD []).getD 0 [],
      getD_zero_mem _ _ hrevne, "u0", rfl⟩,
     ⟨((alookup (run_pipeline moduleReview schemaReview instEmptyName2 idsU
        timesT1).1 "Person").getD []).getD 0 [],
      getD_zero_mem _ _ hperne, "u1", rfl⟩⟩
  rw [show (run_pipeline moduleReview schemaReview instEmptyName2 idsU
    timesT1).2 = [] from rfl] at hmem
  exact absurd hmem (List.not_mem_nil _)

/-! ### C9 — every extracted row has a non-null string display name -/

/-- Invariant: every row of every bucket carries a string `_name`. -/
def NameInv (st : ExtState) : Prop :=
  ∀ t, ∀ row ∈ bucketOf st t, ∃ s, alookup row "_name" = some (PVal.str s)

theorem processItem_nameInv (model : Inst) (allNodes : List GraphNodeConfig)
    (cfg : GraphNodeConfig) (ids times : Nat → String) (st : ExtState)
    (item : FieldVal) (hexc : "_name" ∉ cfg.excluded_fields)
    (hleg : ∀ n ∈ allNodes, n.embed_in_parent = false)
    (hemb : ∀ fe ∈ cfg.embedded, fe.1.data ≠ [] ∧
      fe.1.data.head? ≠ some (Char.ofNat 95))
    (hinv : NameInv st) :
    NameInv (processItem model allNodes cfg ids times st item) := by
  cases item with
  | vnone => exact hinv
  | vstr s => exact hinv
  | objs l => exact hinv
  | obj inst =>
      have hname := buildRow_name model allNodes cfg (ids st.ctr)
        (times st.ctr) inst hexc hleg hemb
      simp only [processItem]
      split
      case isTrue htr =>
        split
        case isTrue hseen => exact hinv
        case isFalse hseen =>
          intro t row hrow
          by_cases ht : t = cfg.className
          · subst ht
            simp only [bucketOf, appendRow, alookup_aset_self, Option.getD_some]
              at hrow
            rcases List.mem_append.1 hrow with hm | hm
            · exact hinv _ row hm
            · rw [List.mem_singleton.1 hm]
              exact ⟨_, hname⟩
          · have hrow2 : row ∈ bucketOf st t := by
              simp only [bucketOf, appendRow, alookup_aset_ne _ _ _ _ ht] at hrow
              exact hrow
            exact hinv _ row hrow2
      case isFalse htr =>
        intro t row hrow
        by_cases ht : t = cfg.className
        · subst ht
          simp only [bucketOf, appendRow, alookup_aset_self, Option.getD_some]
            at hrow
          rcases List.mem_append.1 hrow with hm | hm
          · exact hinv _ row hm
          · rw [List.mem_singleton.1 hm]
            exact ⟨_, hname⟩
        · have hrow2 : row ∈ bucketOf st t := by
            simp only [bucketOf, appendRow, alookup_aset_ne _ _ _ _ ht] at hrow
            exact hrow
          exact hinv _ row hrow2

/-- C9: every node row produced by extraction has a non-null string
display name, and whenever the configured name source is a field that is
absent or null on the item, the computed name is the fallback
`"{node_type}_unnamed"` rather than null.  (Hypotheses: no legacy
embedding, `_name` never excluded, embedded field names are non-empty
pydantic identifiers.) -/
theorem every_row_has_string_display_name (model : Inst)
    (nodes : List GraphNodeConfig) (relations : List GraphRelationConfig)
    (ids times : Nat → String)
    (hexc : ∀ n ∈ nodes, "_name" ∉ n.excluded_fields)
    (hleg : ∀ n ∈ nodes, n.embed_in_parent = false)
    (hemb : ∀ n ∈ nodes, ∀ fe ∈ n.embedded, fe.1.data ≠ [] ∧
      fe.1.data.head? ≠ some (Char.ofNat 95)) :
    (∀ t, ∀ row ∈ (alookup (extract_graph_data model nodes relations ids
        times).1 t).getD [], ∃ s, alookup row "_name" = some (PVal.str s)) ∧
    (∀ (f ty : String) (d : List (String × PVal)) (cfg : GraphNodeConfig),
      cfg.name_from = NameFrom.field f →
      (alookup d f = Option.none ∨ alookup d f = some PVal.none) →
      cfg.get_name_value d ty = ty ++ "_unnamed") := by
  constructor
  · have hfinal : NameInv (nodes.foldl (processNode model nodes ids times)
        (initState nodes)) := by
      refine foldl_preserve_mem (P := NameInv) nodes _
        (fun st cfg hcfg hp => ?_) _ ?_
      · simp only [processNode]
        split
        · exact hp
        · refine foldl_preserve_mem (P := NameInv) _ _
            (fun st2 p _ hp2 => ?_) st hp
          simp only [processPath]
          split
          · exact hp2
          · exact foldl_preserve_mem (P := NameInv) _ _
              (fun st3 it _ hp3 => processItem_nameInv model nodes cfg ids
                times st3 it (hexc cfg hcfg) hleg (hemb cfg hcfg) hp3) st2 hp2
      · intro t row hrow
        rw [(bucket_seen_init_empty nodes t).1] at hrow
        exact absurd hrow (List.not_mem_nil _)
    exact fun t row hrow => hfinal t row hrow
  · intro f ty d cfg hnf hmiss
    simp only [GraphNodeConfig.get_name_value, hnf]
    rcases hmiss with hm | hm <;> rw [hm]

/-- Witness for C9: the single Person row of the duplicate-Alice run has
the string name "Alice", and a Person item with a missing name field
would fall back to "Person_unnamed". -/
theorem every_row_has_string_display_name_witness :
    (∃ s, alookup (((alookup (extract_graph_data instDupAlice [personNodeCfgV]
        [] idsU timesT1).1 "Person").getD []).getD 0 []) "_name"
      = some (PVal.str s)) ∧
    personNodeCfg.get_name_value [("x", PVal.str "1")] "Person"
      = "Person" ++ "_unnamed" := by
  have h := every_row_has_string_display_name instDupAlice [personNodeCfgV]
    [] idsU timesT1
    (fun n hn => by
      rcases List.mem_cons.1 hn with hh | hh
      · subst hh; decide
      · exact absurd hh (List.not_mem_nil _))
    (fun n hn => by
      rcases List.mem_cons.1 hn with hh | hh
      · subst hh; rfl
      · exact absurd hh (List.not_mem_nil _))
    (fun n hn => by
      rcases List.mem_cons.1 hn with hh | hh
      · subst hh; intro fe hfe; exact absurd hfe (List.not_mem_nil _)
      · exact absurd hh (List.not_mem_nil _))
  constructor
  · refine h.1 "Person" _ (getD_zero_mem _ _ ?_)
    intro hnil
    have hlen : ((alookup (extract_graph_data instDupAlice [personNodeCfgV]
      [] idsU timesT1).1 "Person").getD []).length = 1 := rfl
    rw [hnil] at hlen
    exact absurd hlen (by decide)
  · exact h.2 "name" "Person" [("x", PVal.str "1")] personNodeCfg rfl
      (Or.inl rfl)

/-! ### C7 — two-run comparison: content vs identities and timestamps -/

/-- The per-item system fields written from the run's fresh-value
supplies: the identity and the two timestamps. -/
def sysKeys : List String := ["id", "_created_at", "_updated_at"]

/-- Two rows agree key for key, except possibly in the values of the
system keys (identity, timestamps). -/
inductive RowsEquiv : Row → Row → Prop where
  | nil : RowsEquiv [] []
  | cons_eq (k : String) (v : PVal) {r₁ r₂ : Row} :
      RowsEquiv r₁ r₂ → RowsEquiv ((k, v) :: r₁) ((k, v) :: r₂)
  | cons_sys (k : String) (v₁ v₂ : PVal) {r₁ r₂ : Row} :
      k ∈ sysKeys → RowsEquiv r₁ r₂ →
      RowsEquiv ((k, v₁) :: r₁) ((k, v₂) :: r₂)

theorem rowsEquiv_refl (r : Row) : RowsEquiv r r := by
  induction r with
  | nil => exact RowsEquiv.nil
  | cons hd tl ih => exact RowsEquiv.cons_eq hd.1 hd.2 ih

theorem rowsEquiv_lookup (r₁ r₂ : Row) (k : String) (h : RowsEquiv r₁ r₂)
    (hk : k ∉ sysKeys) : alookup r₁ k = alookup r₂ k := by
  induction h with
  | nil => rfl
  | cons_eq k₂ v₂ hr ih =>
      simp only [alookup]
      by_cases hke : k₂ = k
      · rw [if_pos hke, if_pos hke]
      · rw [if_neg hke, if_neg hke]; exact ih
  | cons_sys k₂ v₁ v₂ hks hr ih =>
      have hke : k₂ ≠ k := fun he => hk (he ▸ hks)
      simp only [alookup]
      rw [if_neg hke, if_neg hke]
      exact ih

theorem rowsEquiv_aset (r₁ r₂ : Row) (k : String) (v : PVal)
    (h : RowsEquiv r₁ r₂) : RowsEquiv (aset r₁ k v) (aset r₂ k v) := by
  induction h with
  | nil => exact RowsEquiv.cons_eq k v RowsEquiv.nil
  | cons_eq k₂ v₂ hr ih =>
      simp only [aset]
      by_cases hke : k₂ = k
      · rw [if_pos hke, if_pos hke]
        exact RowsEquiv.cons_eq k₂ v hr
      · rw [if_neg hke, if_neg hke]
        exact RowsEquiv.cons_eq k₂ v₂ ih
  | cons_sys k₂ v₁ v₂ hks hr ih =>
      simp only [aset]
      by_cases hke : k₂ = k
      · rw [if_pos hke, if_pos hke]
        exact RowsEquiv.cons_eq k₂ v hr
      · rw [if_neg hke, if_neg hke]
        exact RowsEquiv.cons_sys k₂ v₁ v₂ hks ih

theorem rowsEquiv_aset_sys (r₁ r₂ : Row) (k : String) (v₁ v₂ : PVal)
    (hks : k ∈ sysKeys) (h : RowsEquiv r₁ r₂) :
    RowsEquiv (aset r₁ k v₁) (aset r₂ k v₂) := by
  induction h with
  | nil => exact RowsEquiv.cons_sys k v₁ v₂ hks RowsEquiv.nil
  | cons_eq k₂ w hr ih =>
      simp only [aset]
      by_cases hke : k₂ = k
      · rw [if_pos hke, if_pos hke]
        exact RowsEquiv.cons_sys k₂ v₁ v₂ (hke ▸ hks) hr
      · rw [if_neg hke, if_neg hke]
        exact RowsEquiv.cons_eq k₂ w ih
  | cons_sys k₂ w₁ w₂ hks₂ hr ih =>
      simp only [aset]
      by_cases hke : k₂ = k
      · rw [if_pos hke, if_pos hke]
        exact RowsEquiv.cons_sys k₂ v₁ v₂ (hke ▸ hks) hr
      · rw [if_neg hke, if_neg hke]
        exact RowsEquiv.cons_sys k₂ w₁ w₂ hks₂ ih

theorem rowsEquiv_aerase (r₁ r₂ : Row) (k : String)
    (h : RowsEquiv r₁ r₂) : RowsEquiv (aerase r₁ k) (aerase r₂ k) := by
  induction h with
  | nil => exact RowsEquiv.nil
  | cons_eq k₂ v₂ hr ih =>
      simp only [aerase]
      by_cases hke : k₂ = k
      · rw [if_pos hke, if_pos hke]; exact hr
      · rw [if_neg hke, if_neg hke]
        exact RowsEquiv.cons_eq k₂ v₂ ih
  | cons_sys k₂ v₁ v₂ hks hr ih =>
      simp only [aerase]
      by_cases hke : k₂ = k
      · rw [if_pos hke, if_pos hke]; exact hr
      · rw [if_neg hke, if_neg hke]
        exact RowsEquiv.cons_sys k₂ v₁ v₂ hks ih

/-- Paired fold preservation of a relation between two accumulators. -/
theorem foldl_rel {α σ₁ σ₂ : Type _} (R : σ₁ → σ₂ → Prop)
    (f₁ : σ₁ → α → σ₁) (f₂ : σ₂ → α → σ₂) (l : List α)
    (h : ∀ s₁ s₂ a, a ∈ l → R s₁ s₂ → R (f₁ s₁ a) (f₂ s₂ a)) :
    ∀ s₁ s₂, R s₁ s₂ → R (l.foldl f₁ s₁) (l.foldl f₂ s₂) := by
  induction l with
  | nil => exact fun s₁ s₂ hr => hr
  | cons hd tl ih =>
      intro s₁ s₂ hr
      simp only [List.foldl_cons]
      exact ih (fun a b c hc hr2 => h a b c (List.mem_cons_of_mem _ hc) hr2) _ _
        (h s₁ s₂ hd (List.mem_cons_self _ _) hr)

theorem mergeWithPre_equiv (r₁ r₂ : Row) (pre : String)
    (d : List (String × PVal)) (h : RowsEquiv r₁ r₂) :
    RowsEquiv (mergeWithPre r₁ pre d) (mergeWithPre r₂ pre d) :=
  foldl_rel RowsEquiv _ _ d
    (fun s₁ s₂ kv _ hr => rowsEquiv_aset s₁ s₂ (pre ++ kv.1) kv.2 hr) r₁ r₂ h

/-- The fold step of `add_embedded_new`, named for reasoning. -/
def newStep (model : Inst) (pn : GraphNodeConfig) (acc : Row)
    (fe : String × String) : Row :=
  let parent_instance : FieldVal :=
    match pn.fieldPathA with
    | some fp => if fp = "" then .obj model else get_field_by_path model fp
    | Option.none => .obj model
  let embedded_data :=
    if fvTruthy parent_instance then getAttrD parent_instance fe.1 else .vnone
  match asDictF embedded_data with
  | some d => mergeWithPre acc (fe.1 ++ "_") d
  | Option.none => acc

theorem add_embedded_new_eq (row : Row) (model : Inst) (pn : GraphNodeConfig) :
    add_embedded_new row model pn =
      if pn.embedded.isEmpty then row
      else pn.embedded.foldl (newStep model pn) row := rfl

/-- The fold step of `add_embedded_legacy`, named for reasoning. -/
def legacyStep (model : Inst) (all_nodes : List GraphNodeConfig)
    (parent_node : GraphNodeConfig) (acc : Row) (en : GraphNodeConfig) : Row :=
  if !en.embed_in_parent then acc
  else
    let parent_class : Option String :=
      match en.parent_node_class with
      | some c => some c
      | Option.none => detect_parent_class en all_nodes
    match parent_class with
    | Option.none => acc
    | some pc =>
        if pc ≠ parent_node.className then acc
        else
          let embedded_data : FieldVal :=
            match en.fieldPathA with
            | some fp => if fp = "" then .vnone else get_field_by_path model fp
            | Option.none => .vnone
          let embedded_data : Option FieldVal :=
            if fvIsNone embedded_data then
              find_embedded_data_in_model model en.className
            else some embedded_data
          match embedded_data with
          | Option.none => acc
          | some ed =>
              match asDictF ed with
              | some d =>
                  let pre :=
                    if en.embedPref ≠ "" then en.embedPref
                    else lowerStr en.className ++ "_"
                  mergeWithPre acc pre d
              | Option.none => acc

theorem add_embedded_legacy_eq (row : Row) (model : Inst)
    (all_nodes : List GraphNodeConfig) (parent_node : GraphNodeConfig) :
    add_embedded_legacy row model all_nodes parent_node =
      all_nodes.foldl (legacyStep model all_nodes parent_node) row := rfl

theorem newStep_equiv (model : Inst) (pn : GraphNodeConfig)
    (fe : String × String) (s₁ s₂ : Row) (h : RowsEquiv s₁ s₂) :
    RowsEquiv (newStep model pn s₁ fe) (newStep model pn s₂ fe) := by
  simp only [newStep]
  cases asDictF (if fvTruthy (match pn.fieldPathA with
      | some fp => if fp = "" then FieldVal.obj model
                   else get_field_by_path model fp
      | Option.none => FieldVal.obj model) = true then
      getAttrD (match pn.fieldPathA with
      | some fp => if fp = "" then FieldVal.obj model
                   else get_field_by_path model fp
      | Option.none => FieldVal.obj model) fe.1 else FieldVal.vnone) with
  | none => exact h
  | some d => exact mergeWithPre_equiv _ _ _ d h

theorem legacyStep_equiv (model : Inst) (all_nodes : List GraphNodeConfig)
    (pn : GraphNodeConfig) (en : GraphNodeConfig) (s₁ s₂ : Row)
    (h : RowsEquiv s₁ s₂) :
    RowsEquiv (legacyStep model all_nodes pn s₁ en)
      (legacyStep model all_nodes pn s₂ en) := by
  simp only [legacyStep]
  by_cases hb : (!en.embed_in_parent) = true
  · rw [if_pos hb, if_pos hb]; exact h
  · rw [if_neg hb, if_neg hb]
    cases hpc : (match en.parent_node_class with
        | some c => some c
        | Option.none => detect_parent_class en all_nodes) with
    | none => exact h
    | some pc =>
        dsimp only
        by_cases hpn : pc ≠ pn.className
        · rw [if_pos hpn, if_pos hpn]; exact h
        · rw [if_neg hpn, if_neg hpn]
          cases (if fvIsNone (match en.fieldPathA with
              | some fp => if fp = "" then FieldVal.vnone
                           else get_field_by_path model fp
              | Option.none => FieldVal.vnone) = true then
              find_embedded_data_in_model model en.className
            else some (match en.fieldPathA with
              | some fp => if fp = "" then FieldVal.vnone
                           else get_field_by_path model fp
              | Option.none => FieldVal.vnone)) with
          | none => exact h
          | some ed =>
              dsimp only
              cases asDictF ed with
              | none => exact h
              | some d => exact mergeWithPre_equiv _ _ _ d h

theorem add_embedded_fields_equiv (s₁ s₂ : Row) (model : Inst)
    (all_nodes : List GraphNodeConfig) (pn : GraphNodeConfig)
    (h : RowsEquiv s₁ s₂) :
    RowsEquiv (add_embedded_fields s₁ model all_nodes pn)
      (add_embedded_fields s₂ model all_nodes pn) := by
  unfold add_embedded_fields
  have h1 : RowsEquiv (add_embedded_new s₁ model pn)
      (add_embedded_new s₂ model pn) := by
    rw [add_embedded_new_eq, add_embedded_new_eq]
    by_cases he : pn.embedded.isEmpty = true
    · rw [if_pos he, if_pos he]; exact h
    · rw [if_neg he, if_neg he]
      exact foldl_rel RowsEquiv _ _ pn.embedded
        (fun a b fe _ hr => newStep_equiv model pn fe a b hr) s₁ s₂ h
  rw [add_embedded_legacy_eq, add_embedded_legacy_eq]
  exact foldl_rel RowsEquiv _ _ all_nodes
    (fun a b en _ hr => legacyStep_equiv model all_nodes pn en a b hr) _ _ h1

/-- A node declaration whose display name does not depend on the values
of the system keys (true of every field-based name source on a pydantic
field, since pydantic field names are plain identifiers). -/
def NameIndep (cfg : GraphNodeConfig) : Prop :=
  ∀ d₁ d₂ ty, RowsEquiv d₁ d₂ →
    cfg.get_name_value d₁ ty = cfg.get_name_value d₂ ty

theorem nameIndep_of_field (cfg : GraphNodeConfig) (f : String)
    (h : cfg.name_from = NameFrom.field f) (hf : f ∉ sysKeys) :
    NameIndep cfg := by
  intro d₁ d₂ ty he
  simp only [GraphNodeConfig.get_name_value, h]
  rw [rowsEquiv_lookup d₁ d₂ f he hf]

/-- A node declaration whose deduplication key, when set, is not a
system key (a pydantic field name). -/
def DedupIndep (cfg : GraphNodeConfig) : Prop :=
  ∀ k, dedupKeyOf cfg = some k → k ∉ sysKeys

theorem rowDedup_equiv (cfg : GraphNodeConfig) (r₁ r₂ : Row)
    (h : RowsEquiv r₁ r₂) (hd : DedupIndep cfg) :
    rowDedup cfg r₁ = rowDedup cfg r₂ := by
  simp only [rowDedup]
  cases hk : dedupKeyOf cfg with
  | none =>
      dsimp only
      rw [rowsEquiv_lookup _ _ "_name" h (by decide)]
  | some k =>
      dsimp only
      rw [rowsEquiv_lookup _ _ k h (hd k hk)]

/-- Two concurrent builds of the same item with different fresh values
agree except in the system keys. -/
theorem buildRow_equiv (model : Inst) (allNodes : List GraphNodeConfig)
    (cfg : GraphNodeConfig) (inst : Inst) (id₁ t₁ id₂ t₂ : String)
    (hname : NameIndep cfg) :
    RowsEquiv (buildRow model allNodes cfg id₁ t₁ inst)
      (buildRow model allNodes cfg id₂ t₂ inst) := by
  have h1 : RowsEquiv (aset (dumpInst inst) "id" (PVal.str id₁))
      (aset (dumpInst inst) "id" (PVal.str id₂)) :=
    rowsEquiv_aset_sys _ _ "id" _ _ (by decide) (rowsEquiv_refl _)
  have hn := hname _ _ cfg.className h1
  have h2 : RowsEquiv
      (aset (aset (dumpInst inst) "id" (PVal.str id₁)) "_name"
        (PVal.str (cfg.get_name_value
          (aset (dumpInst inst) "id" (PVal.str id₁)) cfg.className)))
      (aset (aset (dumpInst inst) "id" (PVal.str id₂)) "_name"
        (PVal.str (cfg.get_name_value
          (aset (dumpInst inst) "id" (PVal.str id₂)) cfg.className))) := by
    rw [← hn]
    exact rowsEquiv_aset _ _ _ _ h1
  have h3 := foldl_rel RowsEquiv _ _ cfg.excluded_fields
    (fun a b f _ hr => rowsEquiv_aerase a b f hr) _ _ h2
  have h4 := add_embedded_fields_equiv _ _ model allNodes cfg h3
  exact rowsEquiv_aset_sys _ _ "_updated_at" _ _ (by decide)
    (rowsEquiv_aset_sys _ _ "_created_at" _ _ (by decide) h4)

/-- The creation timestamp of a finished row is the fresh `utcnow()`
value drawn for the item. -/
theorem buildRow_created (model : Inst) (allNodes : List GraphNodeConfig)
    (cfg : GraphNodeConfig) (idv now : String) (inst : Inst) :
    alookup (buildRow model allNodes cfg idv now inst) "_created_at"
      = some (PVal.str now) := by
  simp only [buildRow]
  rw [alookup_aset_ne _ _ _ _ (by decide), alookup_aset_self]

theorem buildRow_updated (model : Inst) (allNodes : List GraphNodeConfig)
    (cfg : GraphNodeConfig) (idv now : String) (inst : Inst) :
    alookup (buildRow model allNodes cfg idv now inst) "_updated_at"
      = some (PVal.str now) := by
  simp only [buildRow]
  rw [alookup_aset_self]

theorem forall2_imp {α β : Type _} {R S : α → β → Prop}
    (h : ∀ a b, R a b → S a b) :
    ∀ {l₁ : List α} {l₂ : List β}, List.Forall₂ R l₁ l₂ →
      List.Forall₂ S l₁ l₂ := by
  intro l₁ l₂ hf
  induction hf with
  | nil => exact List.Forall₂.nil
  | cons hab hrest ih => exact List.Forall₂.cons (h _ _ hab) ih

theorem forall2_append {α β : Type _} {R : α → β → Prop} :
    ∀ {l₁ u₁ : List α} {l₂ u₂ : List β}, List.Forall₂ R l₁ l₂ →
      List.Forall₂ R u₁ u₂ → List.Forall₂ R (l₁ ++ u₁) (l₂ ++ u₂) := by
  intro l₁ u₁ l₂ u₂ h hu
  induction h with
  | nil => simpa using hu
  | cons hab hrest ih => exact List.Forall₂.cons hab ih

theorem forall2_len {α β : Type _} {R : α → β → Prop} :
    ∀ {l₁ : List α} {l₂ : List β}, List.Forall₂ R l₁ l₂ →
      l₁.length = l₂.length := by
  intro l₁ l₂ h
  induction h with
  | nil => rfl
  | cons hab hrest ih => simp only [List.length_cons, ih]

theorem forall2_get {α β : Type _} {R : α → β → Prop} :
    ∀ {l₁ : List α} {l₂ : List β}, List.Forall₂ R l₁ l₂ →
      ∀ i x y, l₁.get? i = some x → l₂.get? i = some y → R x y := by
  intro l₁ l₂ h
  induction h with
  | nil => intro i x y hx; cases hx
  | cons hab hrest ih =>
      intro i x y hx hy
      cases i with
      | zero =>
          simp only [List.get?] at hx hy
          cases hx; cases hy
          exact hab
      | succ n => exact ih n x y hx hy

/-- A pair of corresponding rows of the two runs: equal outside the
system keys, with the identity and timestamps drawn from each run's own
supply at a shared index below the item counter. -/
def RowPair (ids₁ times₁ ids₂ times₂ : Nat → String) (c : Nat)
    (r₁ r₂ : Row) : Prop :=
  RowsEquiv r₁ r₂ ∧ ∃ n, n < c ∧
    alookup r₁ "id" = some (PVal.str (ids₁ n)) ∧
    alookup r₂ "id" = some (PVal.str (ids₂ n)) ∧
    alookup r₁ "_created_at" = some (PVal.str (times₁ n)) ∧
    alookup r₂ "_created_at" = some (PVal.str (times₂ n)) ∧
    alookup r₁ "_updated_at" = some (PVal.str (times₁ n)) ∧
    alookup r₂ "_updated_at" = some (PVal.str (times₂ n))

theorem rowPair_mono {ids₁ times₁ ids₂ times₂ : Nat → String} {c cs : Nat}
    (hc : c ≤ cs) {r₁ r₂ : Row}
    (h : RowPair ids₁ times₁ ids₂ times₂ c r₁ r₂) :
    RowPair ids₁ times₁ ids₂ times₂ cs r₁ r₂ := by
  obtain ⟨he, n, hn, h3⟩ := h
  exact ⟨he, n, Nat.lt_of_lt_of_le hn hc, h3⟩

/-- The two runs' node tables paired bucket for bucket: equal keys, and
rows related pointwise. -/
def TablesMatch (P : Row → Row → Prop)
    (t₁ t₂ : List (String × List Row)) : Prop :=
  List.Forall₂ (fun b₁ b₂ => b₁.1 = b₂.1 ∧ List.Forall₂ P b₁.2 b₂.2) t₁ t₂

theorem tablesMatch_mono {P Q : Row → Row → Prop}
    (hPQ : ∀ r₁ r₂, P r₁ r₂ → Q r₁ r₂) {t₁ t₂ : List (String × List Row)}
    (h : TablesMatch P t₁ t₂) : TablesMatch Q t₁ t₂ :=
  forall2_imp (fun _ _ hb => ⟨hb.1, forall2_imp hPQ hb.2⟩) h

theorem tablesMatch_of_empty {P : Row → Row → Prop}
    (t : List (String × List Row)) (h : ∀ kv ∈ t, kv.2 = ([] : List Row)) :
    TablesMatch P t t := by
  induction t with
  | nil => exact List.Forall₂.nil
  | cons hd tl ih =>
      refine List.Forall₂.cons ⟨rfl, ?_⟩
        (ih fun kv hkv => h kv (List.mem_cons_of_mem _ hkv))
      rw [h hd (List.mem_cons_self _ _)]
      exact List.Forall₂.nil

theorem tablesMatch_alookup {P : Row → Row → Prop}
    {t₁ t₂ : List (String × List Row)} (h : TablesMatch P t₁ t₂)
    (key : String) :
    (alookup t₁ key = Option.none ∧ alookup t₂ key = Option.none) ∨
    ∃ b₁ b₂, alookup t₁ key = some b₁ ∧ alookup t₂ key = some b₂ ∧
      List.Forall₂ P b₁ b₂ := by
  induction h with
  | nil => exact Or.inl ⟨rfl, rfl⟩
  | cons hab hrest ih =>
      rename_i a₁ a₂ l₁ l₂
      obtain ⟨k₁, b₁⟩ := a₁
      obtain ⟨k₂, b₂⟩ := a₂
      have hk : k₁ = k₂ := hab.1
      subst hk
      simp only [alookup]
      by_cases hkey : k₁ = key
      · right
        exact ⟨b₁, b₂, by rw [if_pos hkey], by rw [if_pos hkey], hab.2⟩
      · rw [if_neg hkey, if_neg hkey]
        exact ih

theorem tablesMatch_aset {P : Row → Row → Prop}
    {t₁ t₂ : List (String × List Row)} (h : TablesMatch P t₁ t₂)
    (key : String) (b₁ b₂ : List Row) (hb : List.Forall₂ P b₁ b₂) :
    TablesMatch P (aset t₁ key b₁) (aset t₂ key b₂) := by
  induction h with
  | nil => exact List.Forall₂.cons ⟨rfl, hb⟩ List.Forall₂.nil
  | cons hab hrest ih =>
      rename_i a₁ a₂ l₁ l₂
      obtain ⟨k₁, v₁⟩ := a₁
      obtain ⟨k₂, v₂⟩ := a₂
      have hk : k₁ = k₂ := hab.1
      subst hk
      simp only [aset]
      by_cases hkey : k₁ = key
      · rw [if_pos hkey, if_pos hkey]
        exact List.Forall₂.cons ⟨rfl, hb⟩ hrest
      · rw [if_neg hkey, if_neg hkey]
        exact List.Forall₂.cons ⟨rfl, hab.2⟩ ih

theorem tablesMatch_appendRow {P : Row → Row → Prop}
    {t₁ t₂ : List (String × List Row)} (h : TablesMatch P t₁ t₂)
    (key : String) (r₁ r₂ : Row) (hr : P r₁ r₂) :
    TablesMatch P (appendRow t₁ key r₁) (appendRow t₂ key r₂) := by
  have hb : List.Forall₂ P ((alookup t₁ key).getD [] ++ [r₁])
      ((alookup t₂ key).getD [] ++ [r₂]) := by
    rcases tablesMatch_alookup h key with ⟨h1, h2⟩ | ⟨b₁, b₂, h1, h2, hf⟩
    · rw [h1, h2]
      exact List.Forall₂.cons hr List.Forall₂.nil
    · rw [h1, h2]
      exact forall2_append hf (List.Forall₂.cons hr List.Forall₂.nil)
  exact tablesMatch_aset h key _ _ hb

/-- The bisimulation between the two runs' node-pass states: equal item
counters and seen-sets, and tables related row for row. -/
def RunsMatch (ids₁ times₁ ids₂ times₂ : Nat → String)
    (st₁ st₂ : ExtState) : Prop :=
  st₁.ctr = st₂.ctr ∧ st₁.seen = st₂.seen ∧
  TablesMatch (RowPair ids₁ times₁ ids₂ times₂ st₁.ctr) st₁.table st₂.table

/-- One item processed in lockstep by the two runs preserves the
bisimulation: both runs draw at the same supply index, compute equal
deduplication values, and take the same branch. -/
theorem processItem_match (model : Inst) (allNodes : List GraphNodeConfig)
    (cfg : GraphNodeConfig) (ids₁ times₁ ids₂ times₂ : Nat → String)
    (st₁ st₂ : ExtState) (item : FieldVal)
    (hname : NameIndep cfg) (hdk : DedupIndep cfg)
    (hexc : "id" ∉ cfg.excluded_fields)
    (hleg : ∀ n ∈ allNodes, n.embed_in_parent = false)
    (hm : RunsMatch ids₁ times₁ ids₂ times₂ st₁ st₂) :
    RunsMatch ids₁ times₁ ids₂ times₂
      (processItem model allNodes cfg ids₁ times₁ st₁ item)
      (processItem model allNodes cfg ids₂ times₂ st₂ item) := by
  obtain ⟨hctr, hseen, htab⟩ := hm
  cases item with
  | vnone => exact ⟨hctr, hseen, htab⟩
  | vstr s => exact ⟨hctr, hseen, htab⟩
  | objs l => exact ⟨hctr, hseen, htab⟩
  | obj inst =>
      simp only [processItem]
      rw [← hctr, ← hseen]
      have hrow : RowsEquiv
          (buildRow model allNodes cfg (ids₁ st₁.ctr) (times₁ st₁.ctr) inst)
          (buildRow model allNodes cfg (ids₂ st₁.ctr) (times₂ st₁.ctr) inst) :=
        buildRow_equiv model allNodes cfg inst _ _ _ _ hname
      have hded : rowDedup cfg
          (buildRow model allNodes cfg (ids₂ st₁.ctr) (times₂ st₁.ctr) inst)
          = rowDedup cfg
          (buildRow model allNodes cfg (ids₁ st₁.ctr) (times₁ st₁.ctr) inst) :=
        (rowDedup_equiv cfg _ _ hrow hdk).symm
      rw [hded]
      have hpair : RowPair ids₁ times₁ ids₂ times₂ (st₁.ctr + 1)
          (buildRow model allNodes cfg (ids₁ st₁.ctr) (times₁ st₁.ctr) inst)
          (buildRow model allNodes cfg (ids₂ st₁.ctr) (times₂ st₁.ctr) inst) :=
        ⟨hrow, st₁.ctr, Nat.lt_succ_self _,
          buildRow_id model allNodes cfg _ _ inst hexc hleg,
          buildRow_id model allNodes cfg _ _ inst hexc hleg,
          buildRow_created model allNodes cfg _ _ inst,
          buildRow_created model allNodes cfg _ _ inst,
          buildRow_updated model allNodes cfg _ _ inst,
          buildRow_updated model allNodes cfg _ _ inst⟩
      have hmono : TablesMatch (RowPair ids₁ times₁ ids₂ times₂ (st₁.ctr + 1))
          st₁.table st₂.table :=
        tablesMatch_mono (fun a b hp => rowPair_mono (Nat.le_succ _) hp) htab
      by_cases hb : pyTruthy (rowDedup cfg
          (buildRow model allNodes cfg (ids₁ st₁.ctr) (times₁ st₁.ctr) inst))
          = true
      · rw [if_pos hb, if_pos hb]
        by_cases hc : (((alookup st₁.seen cfg.className).getD []).contains
            (pyStr (rowDedup cfg (buildRow model allNodes cfg (ids₁ st₁.ctr)
              (times₁ st₁.ctr) inst)))) = true
        · rw [if_pos hc, if_pos hc]
          exact ⟨rfl, rfl, hmono⟩
        · rw [if_neg hc, if_neg hc]
          exact ⟨rfl, rfl, tablesMatch_appendRow hmono cfg.className _ _ hpair⟩
      · rw [if_neg hb, if_neg hb]
        exact ⟨rfl, rfl, tablesMatch_appendRow hmono cfg.className _ _ hpair⟩

theorem processPath_match (model : Inst) (allNodes : List GraphNodeConfig)
    (cfg : GraphNodeConfig) (ids₁ times₁ ids₂ times₂ : Nat → String)
    (st₁ st₂ : ExtState) (p : Option String)
    (hname : NameIndep cfg) (hdk : DedupIndep cfg)
    (hexc : "id" ∉ cfg.excluded_fields)
    (hleg : ∀ n ∈ allNodes, n.embed_in_parent = false)
    (hm : RunsMatch ids₁ times₁ ids₂ times₂ st₁ st₂) :
    RunsMatch ids₁ times₁ ids₂ times₂
      (processPath model allNodes cfg ids₁ times₁ st₁ p)
      (processPath model allNodes cfg ids₂ times₂ st₂ p) := by
  simp only [processPath]
  by_cases hfd : fvIsNone (match p with
      | some fp => if fp = "" then FieldVal.obj model
                   else get_field_by_path model fp
      | Option.none => FieldVal.obj model) = true
  · rw [if_pos hfd, if_pos hfd]
    exact hm
  · rw [if_neg hfd, if_neg hfd]
    exact foldl_rel (RunsMatch ids₁ times₁ ids₂ times₂)
      (processItem model allNodes cfg ids₁ times₁)
      (processItem model allNodes cfg ids₂ times₂) _
      (fun s₁ s₂ it _ hr => processItem_match model allNodes cfg
        ids₁ times₁ ids₂ times₂ s₁ s₂ it hname hdk hexc hleg hr) st₁ st₂ hm

theorem processNode_match (model : Inst) (nodes : List GraphNodeConfig)
    (cfg : GraphNodeConfig) (ids₁ times₁ ids₂ times₂ : Nat → String)
    (st₁ st₂ : ExtState)
    (hname : NameIndep cfg) (hdk : DedupIndep cfg)
    (hexc : "id" ∉ cfg.excluded_fields)
    (hleg : ∀ n ∈ nodes, n.embed_in_parent = false)
    (hm : RunsMatch ids₁ times₁ ids₂ times₂ st₁ st₂) :
    RunsMatch ids₁ times₁ ids₂ times₂
      (processNode model nodes ids₁ times₁ st₁ cfg)
      (processNode model nodes ids₂ times₂ st₂ cfg) := by
  simp only [processNode]
  by_cases hb : cfg.embed_in_parent = true
  · rw [if_pos hb, if_pos hb]
    exact hm
  · rw [if_neg hb, if_neg hb]
    exact foldl_rel (RunsMatch ids₁ times₁ ids₂ times₂)
      (processPath model nodes cfg ids₁ times₁)
      (processPath model nodes cfg ids₂ times₂) _
      (fun s₁ s₂ p _ hr => processPath_match model nodes cfg
        ids₁ times₁ ids₂ times₂ s₁ s₂ p hname hdk hexc hleg hr) st₁ st₂ hm

theorem init_table_empty (nodes : List GraphNodeConfig) :
    ∀ kv ∈ (initState nodes).table, kv.2 = ([] : List Row) := by
  simp only [initState]
  refine foldl_preserve_mem
    (P := fun (st : ExtState) => ∀ kv ∈ st.table, kv.2 = ([] : List Row)) nodes _
    (fun st cfg _ hp => ?_) _ ?_
  · intro kv hkv
    rcases mem_aset _ _ _ _ hkv with hnew | hold
    · rw [hnew]
    · exact hp kv hold
  · intro kv hkv
    exact absurd hkv (List.not_mem_nil _)

/-- The whole node pass run twice from the same instance and schema, with
different fresh-value supplies, gives bisimilar final states. -/
theorem nodePass_match (model : Inst) (nodes : List GraphNodeConfig)
    (ids₁ times₁ ids₂ times₂ : Nat → String)
    (hname : ∀ n ∈ nodes, NameIndep n)
    (hdk : ∀ n ∈ nodes, DedupIndep n)
    (hexc : ∀ n ∈ nodes, "id" ∉ n.excluded_fields)
    (hleg : ∀ n ∈ nodes, n.embed_in_parent = false) :
    RunsMatch ids₁ times₁ ids₂ times₂
      (nodes.foldl (processNode model nodes ids₁ times₁) (initState nodes))
      (nodes.foldl (processNode model nodes ids₂ times₂) (initState nodes)) := by
  refine foldl_rel (RunsMatch ids₁ times₁ ids₂ times₂)
    (processNode model nodes ids₁ times₁)
    (processNode model nodes ids₂ times₂) nodes
    (fun s₁ s₂ cfg hc hr => processNode_match model nodes cfg
      ids₁ times₁ ids₂ times₂ s₁ s₂ (hname cfg hc) (hdk cfg hc)
      (hexc cfg hc) hleg hr) _ _ ?_
  exact ⟨rfl, rfl, tablesMatch_of_empty _ (init_table_empty nodes)⟩

/-- C7 as stated: two runs' node tables have identical content row for
row, except only for identities (the "id" values). -/
def claimC7_at (t₁ t₂ : List (String × List Row)) : Prop :=
  ∀ ty rows₁ rows₂ i row₁ row₂,
    alookup t₁ ty = some rows₁ → alookup t₂ ty = some rows₂ →
    rows₁.get? i = some row₁ → rows₂.get? i = some row₂ →
    ∀ k, k ≠ "id" → alookup row₁ k = alookup row₂ k

/-- C7 counterexample: the claim exempts only identities, but the rows of
two separate runs also differ in the timestamps — `_created_at` (and
`_updated_at`) hold each run's own `utcnow()` draw, here "T1" vs "T2",
so the tables are NOT identical outside the "id" field. -/
theorem two_runs_differ_beyond_identities :
    ¬ claimC7_at
      (extract_graph_data instDupAlice [personNodeCfgV] []
        (fun _ => "A") (fun _ => "T1")).1
      (extract_graph_data instDupAlice [personNodeCfgV] []
        (fun _ => "B") (fun _ => "T2")).1 := by
  intro h
  have h2 := h "Person"
    ((alookup (extract_graph_data instDupAlice [personNodeCfgV] []
      (fun _ => "A") (fun _ => "T1")).1 "Person").getD [])
    ((alookup (extract_graph_data instDupAlice [personNodeCfgV] []
      (fun _ => "B") (fun _ => "T2")).1 "Person").getD [])
    0
    (((alookup (extract_graph_data instDupAlice [personNodeCfgV] []
      (fun _ => "A") (fun _ => "T1")).1 "Person").getD []).getD 0 [])
    (((alookup (extract_graph_data instDupAlice [personNodeCfgV] []
      (fun _ => "B") (fun _ => "T2")).1 "Person").getD []).getD 0 [])
    rfl rfl rfl rfl "_created_at" (by decide)
  have h3 : (some (PVal.str "T1") : Option PVal) = some (PVal.str "T2") := h2
  injection h3 with h4
  injection h4 with h5
  exact absurd h5 (by decide)

/-- C7 amended: running extraction twice on the same instance and schema
with fresh per-run identity and timestamp supplies yields node tables of
equal shape whose corresponding rows agree on every key OUTSIDE the
system keys `id`, `_created_at`, `_updated_at`; each row pair draws its
identity and timestamps from its own run's supply at a shared index, so
with disjoint identity supplies (uuid4 collisions aside) the identities
of corresponding rows always differ.  Hypotheses: name sources and
deduplication keys do not read the system keys (pydantic field names
cannot), "id" is never excluded, and no legacy `embed_in_parent`
declarations are present. -/
theorem separate_runs_same_content_distinct_identities (model : Inst)
    (nodes : List GraphNodeConfig) (relations : List GraphRelationConfig)
    (ids₁ times₁ ids₂ times₂ : Nat → String)
    (hname : ∀ n ∈ nodes, NameIndep n)
    (hdk : ∀ n ∈ nodes, DedupIndep n)
    (hexc : ∀ n ∈ nodes, "id" ∉ n.excluded_fields)
    (hleg : ∀ n ∈ nodes, n.embed_in_parent = false)
    (hdisj : ∀ m k, ids₁ m ≠ ids₂ k) :
    ∀ t rows₁ rows₂,
      alookup (extract_graph_data model nodes relations ids₁ times₁).1 t
        = some rows₁ →
      alookup (extract_graph_data model nodes relations ids₂ times₂).1 t
        = some rows₂ →
      rows₁.length = rows₂.length ∧
      ∀ i row₁ row₂, rows₁.get? i = some row₁ → rows₂.get? i = some row₂ →
        (∀ k, k ∉ sysKeys → alookup row₁ k = alookup row₂ k) ∧
        ∃ n, alookup row₁ "id" = some (PVal.str (ids₁ n)) ∧
          alookup row₂ "id" = some (PVal.str (ids₂ n)) ∧
          alookup row₁ "id" ≠ alookup row₂ "id" ∧
          alookup row₁ "_created_at" = some (PVal.str (times₁ n)) ∧
          alookup row₂ "_created_at" = some (PVal.str (times₂ n)) := by
  intro t rows₁ rows₂ h₁ h₂
  obtain ⟨hctr, hseen, htab⟩ :=
    nodePass_match model nodes ids₁ times₁ ids₂ times₂ hname hdk hexc hleg
  rw [show (extract_graph_data model nodes relations ids₁ times₁).1
      = (nodes.foldl (processNode model nodes ids₁ times₁)
          (initState nodes)).table from rfl] at h₁
  rw [show (extract_graph_data model nodes relations ids₂ times₂).1
      = (nodes.foldl (processNode model nodes ids₂ times₂)
          (initState nodes)).table from rfl] at h₂
  rcases tablesMatch_alookup htab t with ⟨hn1, _⟩ | ⟨b₁, b₂, hb₁, hb₂, hf⟩
  · rw [h₁] at hn1
    cases hn1
  · rw [h₁] at hb₁
    injection hb₁ with he₁
    subst he₁
    rw [h₂] at hb₂
    injection hb₂ with he₂
    subst he₂
    constructor
    · exact forall2_len hf
    · intro i row₁ row₂ hg₁ hg₂
      obtain ⟨heq, n, hlt, hid₁, hid₂, hc₁, hc₂, hu₁, hu₂⟩ :=
        forall2_get hf i row₁ row₂ hg₁ hg₂
      refine ⟨fun k hk => rowsEquiv_lookup _ _ k heq hk,
        n, hid₁, hid₂, ?_, hc₁, hc₂⟩
      rw [hid₁, hid₂]
      intro hcon
      injection hcon with hcon2
      injection hcon2 with hcon3
      exact hdisj n n hcon3

/-- Witness for C7: the duplicate-Alice instance run twice with supplies
("A", "T1") and ("B", "T2") yields Person rows that agree on `name` and
carry distinct identities. -/
theorem separate_runs_same_content_distinct_identities_witness :
    alookup (((alookup (extract_graph_data instDupAlice [personNodeCfgV] []
        (fun _ => "A") (fun _ => "T1")).1 "Person").getD []).getD 0 []) "name"
      = alookup (((alookup (extract_graph_data instDupAlice [personNodeCfgV]
        [] (fun _ => "B") (fun _ => "T2")).1 "Person").getD []).getD 0 [])
        "name" ∧
    alookup (((alookup (extract_graph_data instDupAlice [personNodeCfgV] []
        (fun _ => "A") (fun _ => "T1")).1 "Person").getD []).getD 0 []) "id"
      ≠ alookup (((alookup (extract_graph_data instDupAlice [personNodeCfgV]
        [] (fun _ => "B") (fun _ => "T2")).1 "Person").getD []).getD 0 [])
        "id" := by
  have hAB : ∀ m k : Nat, ("A" : String) ≠ ("B" : String) :=
    fun m k => by decide
  have h := separate_runs_same_content_distinct_identities instDupAlice
    [personNodeCfgV] [] (fun _ => "A") (fun _ => "T1")
    (fun _ => "B") (fun _ => "T2")
    (fun n hn => by
      rcases List.mem_cons.1 hn with hh | hh
      · subst hh
        exact nameIndep_of_field _ "name" rfl (by decide)
      · exact absurd hh (List.not_mem_nil _))
    (fun n hn => by
      rcases List.mem_cons.1 hn with hh | hh
      · subst hh
        intro k hk
        rw [show dedupKeyOf personNodeCfgV = Option.none from rfl] at hk
        exact Option.noConfusion hk
      · exact absurd hh (List.not_mem_nil _))
    (fun n hn => by
      rcases List.mem_cons.1 hn with hh | hh
      · subst hh; decide
      · exact absurd hh (List.not_mem_nil _))
    (fun n hn => by
      rcases List.mem_cons.1 hn with hh | hh
      · subst hh; rfl
      · exact absurd hh (List.not_mem_nil _))
    hAB
    "Person"
    ((alookup (extract_graph_data instDupAlice [personNodeCfgV] []
      (fun _ => "A") (fun _ => "T1")).1 "Person").getD [])
    ((alookup (extract_graph_data instDupAlice [personNodeCfgV] []
      (fun _ => "B") (fun _ => "T2")).1 "Person").getD [])
    rfl rfl
  obtain ⟨hlen, hrows⟩ := h
  obtain ⟨hcontent, n, hid₁, hid₂, hne, hc₁, hc₂⟩ := hrows 0
    (((alookup (extract_graph_data instDupAlice [personNodeCfgV] []
      (fun _ => "A") (fun _ => "T1")).1 "Person").getD []).getD 0 [])
    (((alookup (extract_graph_data instDupAlice [personNodeCfgV] []
      (fun _ => "B") (fun _ => "T2")).1 "Person").getD []).getD 0 [])
    rfl rfl
  exact ⟨hcontent "name" (by decide), hne⟩

end GraphSpec
